import Mathlib

/-!
Verification of the bubble-chart layout core (`src/composables/usePercentageCalculator.ts`
and `src/composables/usePixiBubbleChart.ts`).

JavaScript numbers are modelled as exact rationals (`ℚ`) where the code only uses
field operations and comparisons, and as reals (`ℝ`) where `Math.sqrt` is involved.
Generic definitions are stated over a `LinearOrderedField` so that the same embedding
serves both instantiations.
-/

namespace BubbleChart

/-! ### Category proportion allocator (`usePercentageCalculator.ts`) -/

/-- Input record of `calculatePercentages` (`SentimentData` in the source). -/
structure SentimentData where
  positivo : ℚ
  neutro : ℚ
  negativo : ℚ
  total : ℚ
deriving DecidableEq

/-- Output record of `calculatePercentages` (`PercentageResult` in the source). -/
structure PercentageResult where
  positivo : ℚ
  neutro : ℚ
  negativo : ℚ
deriving DecidableEq

/-- JavaScript `Math.round`: round to nearest integer, halves toward positive infinity. -/
def jsRound (x : ℚ) : ℚ := ((⌊x + 1 / 2⌋ : ℤ) : ℚ)

/-- The `exact` record: exact fractional percentages of each category. -/
def exactPcts (d : SentimentData) : ℚ × ℚ × ℚ :=
  (d.positivo / d.total * 100, d.neutro / d.total * 100, d.negativo / d.total * 100)

/-- The `rounded` record: `Math.round` of each exact percentage. -/
def roundedPcts (d : SentimentData) : ℚ × ℚ × ℚ :=
  (jsRound (exactPcts d).1, jsRound (exactPcts d).2.1, jsRound (exactPcts d).2.2)

/-- The rounding `error = 100 - totalRounded` computed by `calculatePercentages`. -/
def allocError (d : SentimentData) : ℚ :=
  100 - ((roundedPcts d).1 + (roundedPcts d).2.1 + (roundedPcts d).2.2)

/-- The absolute deviation `Math.abs(exact - rounded)` of the positive category,
used by the sort comparator on the `adjustments` array. -/
def devP (d : SentimentData) : ℚ := |(exactPcts d).1 - (roundedPcts d).1|

/-- The absolute deviation of the neutral category. -/
def devN (d : SentimentData) : ℚ := |(exactPcts d).2.1 - (roundedPcts d).2.1|

/-- The absolute deviation of the negative category. -/
def devG (d : SentimentData) : ℚ := |(exactPcts d).2.2 - (roundedPcts d).2.2|

/-- Keys of the three categories, in the stable input order of the `adjustments` array. -/
inductive SentKey where
  | positivo
  | neutro
  | negativo
deriving DecidableEq

/-- The category picked for the single ±1 adjustment: `adjustments[0].key` after the
stable descending sort by `Math.abs(exact - rounded)`.  The first element of a stable
descending sort of the three-element array is the first category (in the input order
positivo, neutro, negativo) attaining the maximal absolute deviation, which is what
the nested conditional below computes. -/
def adjustKey (d : SentimentData) : SentKey :=
  if devN d ≤ devP d ∧ devG d ≤ devP d then .positivo
  else if devG d ≤ devN d then .neutro
  else .negativo

/-- The value `error > 0 ? 1 : -1` added to the selected category. -/
def adjustDelta (d : SentimentData) : ℚ := if 0 < allocError d then 1 else -1

/-- The `rounded` record after the single `rounded[keyToAdjust] += error > 0 ? 1 : -1`
adjustment. -/
def adjustedPcts (d : SentimentData) : ℚ × ℚ × ℚ :=
  if adjustKey d = .positivo then
    ((roundedPcts d).1 + adjustDelta d, (roundedPcts d).2.1, (roundedPcts d).2.2)
  else if adjustKey d = .neutro then
    ((roundedPcts d).1, (roundedPcts d).2.1 + adjustDelta d, (roundedPcts d).2.2)
  else
    ((roundedPcts d).1, (roundedPcts d).2.1, (roundedPcts d).2.2 + adjustDelta d)

/-- `calculatePercentages` from `usePercentageCalculator.ts`: early return on zero total,
largest-remainder rounding with a single ±1 adjustment, then the defensive fallback
(`finalSum !== 100`) that adds any residual to `negativo`.  The source's local
`finalSum` is inlined. -/
def calculatePercentages (d : SentimentData) : PercentageResult :=
  if d.total = 0 then ⟨0, 0, 0⟩
  else if allocError d = 0 then
    ⟨(roundedPcts d).1, (roundedPcts d).2.1, (roundedPcts d).2.2⟩
  else if (adjustedPcts d).1 + (adjustedPcts d).2.1 + (adjustedPcts d).2.2 ≠ 100 then
    ⟨(adjustedPcts d).1, (adjustedPcts d).2.1,
      (adjustedPcts d).2.2 +
        (100 - ((adjustedPcts d).1 + (adjustedPcts d).2.1 + (adjustedPcts d).2.2))⟩
  else ⟨(adjustedPcts d).1, (adjustedPcts d).2.1, (adjustedPcts d).2.2⟩

/-! Basic facts about `jsRound` and the adjustment-key selection. -/

theorem jsRound_le (x : ℚ) : jsRound x ≤ x + 1 / 2 := by
  unfold jsRound
  exact_mod_cast Int.floor_le (x + 1 / 2)

theorem lt_jsRound (x : ℚ) : x - 1 / 2 < jsRound x := by
  unfold jsRound
  have h := Int.lt_floor_add_one (x + 1 / 2)
  push_cast at h ⊢
  linarith

theorem jsRound_nonneg {x : ℚ} (hx : 0 ≤ x) : 0 ≤ jsRound x := by
  unfold jsRound
  have : (0 : ℤ) ≤ ⌊x + 1 / 2⌋ := by
    rw [Int.le_floor]
    push_cast
    linarith
  exact_mod_cast this

theorem jsRound_eq_zero_imp {x : ℚ} (h : jsRound x = 0) : x < 1 / 2 := by
  unfold jsRound at h
  have h0 : (⌊x + 1 / 2⌋ : ℤ) = 0 := by exact_mod_cast h
  have h1 : x + 1 / 2 ∈ Set.Ico (0 : ℚ) 1 := Int.floor_eq_zero_iff.mp h0
  have h2 := h1.2
  linarith

theorem jsRound_int_bounds {x : ℚ} (hx : 0 ≤ x) (hlt : jsRound x < 1) : jsRound x = 0 := by
  have h0 : 0 ≤ jsRound x := jsRound_nonneg hx
  unfold jsRound at h0 hlt ⊢
  have ha : (0 : ℤ) ≤ ⌊x + 1 / 2⌋ := by exact_mod_cast h0
  have hb : ⌊x + 1 / 2⌋ < 1 := by exact_mod_cast hlt
  have : ⌊x + 1 / 2⌋ = 0 := by omega
  exact_mod_cast this

theorem adjustKey_positivo {d : SentimentData} (h : adjustKey d = .positivo) :
    devN d ≤ devP d ∧ devG d ≤ devP d := by
  by_contra hcon
  unfold adjustKey at h
  rw [if_neg hcon] at h
  by_cases h2 : devG d ≤ devN d
  · rw [if_pos h2] at h
    exact SentKey.noConfusion h
  · rw [if_neg h2] at h
    exact SentKey.noConfusion h

theorem adjustKey_neutro {d : SentimentData} (h : adjustKey d = .neutro) :
    devP d ≤ devN d ∧ devG d ≤ devN d := by
  unfold adjustKey at h
  by_cases h1 : devN d ≤ devP d ∧ devG d ≤ devP d
  · rw [if_pos h1] at h
    exact SentKey.noConfusion h
  · rw [if_neg h1] at h
    by_cases h2 : devG d ≤ devN d
    · push_neg at h1
      refine ⟨?_, h2⟩
      rcases le_or_lt (devN d) (devP d) with hc | hc
      · linarith [h1 hc]
      · exact le_of_lt hc
    · rw [if_neg h2] at h
      exact SentKey.noConfusion h

theorem adjustKey_negativo {d : SentimentData} (h : adjustKey d = .negativo) :
    devP d ≤ devG d ∧ devN d ≤ devG d := by
  unfold adjustKey at h
  by_cases h1 : devN d ≤ devP d ∧ devG d ≤ devP d
  · rw [if_pos h1] at h
    exact SentKey.noConfusion h
  · rw [if_neg h1] at h
    by_cases h2 : devG d ≤ devN d
    · rw [if_pos h2] at h
      exact SentKey.noConfusion h
    · push_neg at h1
      push_neg at h2
      refine ⟨?_, le_of_lt h2⟩
      rcases le_or_lt (devN d) (devP d) with hc | hc
      · exact le_of_lt (h1 hc)
      · exact le_of_lt (lt_trans hc h2)

/-- Core correctness of the allocator under the data-producer invariant
`p + n + g = total`, `total > 0`, all counts non-negative: the rounding error lies
in `{-1, 0, 1}`, the single ±1 adjustment restores the sum to exactly 100 with all
components non-negative, and the final result is a non-negative triple summing to 100. -/
theorem alloc_core (p n g T : ℚ) (hp : 0 ≤ p) (hn : 0 ≤ n) (hg : 0 ≤ g)
    (hT : 0 < T) (hs : p + n + g = T) :
    (allocError ⟨p, n, g, T⟩ = -1 ∨ allocError ⟨p, n, g, T⟩ = 0 ∨
      allocError ⟨p, n, g, T⟩ = 1) ∧
    (allocError ⟨p, n, g, T⟩ ≠ 0 →
      (adjustedPcts ⟨p, n, g, T⟩).1 + (adjustedPcts ⟨p, n, g, T⟩).2.1 +
          (adjustedPcts ⟨p, n, g, T⟩).2.2 = 100 ∧
        0 ≤ (adjustedPcts ⟨p, n, g, T⟩).1 ∧ 0 ≤ (adjustedPcts ⟨p, n, g, T⟩).2.1 ∧
        0 ≤ (adjustedPcts ⟨p, n, g, T⟩).2.2) ∧
    (0 ≤ (calculatePercentages ⟨p, n, g, T⟩).positivo ∧
      0 ≤ (calculatePercentages ⟨p, n, g, T⟩).neutro ∧
      0 ≤ (calculatePercentages ⟨p, n, g, T⟩).negativo ∧
      (calculatePercentages ⟨p, n, g, T⟩).positivo +
          (calculatePercentages ⟨p, n, g, T⟩).neutro +
          (calculatePercentages ⟨p, n, g, T⟩).negativo = 100) := by
  have hT0 : T ≠ 0 := ne_of_gt hT
  have heP : (exactPcts ⟨p, n, g, T⟩).1 = p / T * 100 := rfl
  have heN : (exactPcts ⟨p, n, g, T⟩).2.1 = n / T * 100 := rfl
  have heG : (exactPcts ⟨p, n, g, T⟩).2.2 = g / T * 100 := rfl
  have hE : p / T * 100 + n / T * 100 + g / T * 100 = 100 := by
    field_simp
    linarith
  have hP0 : 0 ≤ p / T * 100 := by positivity
  have hN0 : 0 ≤ n / T * 100 := by positivity
  have hG0 : 0 ≤ g / T * 100 := by positivity
  have hkP : (roundedPcts ⟨p, n, g, T⟩).1 = jsRound (p / T * 100) := rfl
  have hkN : (roundedPcts ⟨p, n, g, T⟩).2.1 = jsRound (n / T * 100) := rfl
  have hkG : (roundedPcts ⟨p, n, g, T⟩).2.2 = jsRound (g / T * 100) := rfl
  have hPu : jsRound (p / T * 100) ≤ p / T * 100 + 1 / 2 := jsRound_le _
  have hNu : jsRound (n / T * 100) ≤ n / T * 100 + 1 / 2 := jsRound_le _
  have hGu : jsRound (g / T * 100) ≤ g / T * 100 + 1 / 2 := jsRound_le _
  have hPl : p / T * 100 - 1 / 2 < jsRound (p / T * 100) := lt_jsRound _
  have hNl : n / T * 100 - 1 / 2 < jsRound (n / T * 100) := lt_jsRound _
  have hGl : g / T * 100 - 1 / 2 < jsRound (g / T * 100) := lt_jsRound _
  have hkP0 : 0 ≤ jsRound (p / T * 100) := jsRound_nonneg hP0
  have hkN0 : 0 ≤ jsRound (n / T * 100) := jsRound_nonneg hN0
  have hkG0 : 0 ≤ jsRound (g / T * 100) := jsRound_nonneg hG0
  have hErr : allocError ⟨p, n, g, T⟩ =
      100 - (jsRound (p / T * 100) + jsRound (n / T * 100) + jsRound (g / T * 100)) := rfl
  have hdP : devP ⟨p, n, g, T⟩ = |p / T * 100 - jsRound (p / T * 100)| := rfl
  have hdN : devN ⟨p, n, g, T⟩ = |n / T * 100 - jsRound (n / T * 100)| := rfl
  have hdG : devG ⟨p, n, g, T⟩ = |g / T * 100 - jsRound (g / T * 100)| := rfl
  -- the error is an integer in {-1, 0, 1}
  have hTri : allocError ⟨p, n, g, T⟩ = -1 ∨ allocError ⟨p, n, g, T⟩ = 0 ∨
      allocError ⟨p, n, g, T⟩ = 1 := by
    obtain ⟨m, hm⟩ : ∃ m : ℤ, allocError ⟨p, n, g, T⟩ = (m : ℚ) :=
      ⟨100 - ⌊p / T * 100 + 1 / 2⌋ - ⌊n / T * 100 + 1 / 2⌋ - ⌊g / T * 100 + 1 / 2⌋, by
        rw [hErr]
        unfold jsRound
        push_cast
        ring⟩
    have hub : (m : ℚ) < 2 := by rw [← hm, hErr]; linarith
    have hlb : (-2 : ℚ) < m := by rw [← hm, hErr]; linarith
    have hub2 : m < 2 := by exact_mod_cast hub
    have hlb2 : -2 < m := by exact_mod_cast hlb
    have hm3 : m = -1 ∨ m = 0 ∨ m = 1 := by omega
    rcases hm3 with h | h | h
    · left; rw [hm, h]; norm_num
    · right; left; rw [hm, h]; norm_num
    · right; right; rw [hm, h]; norm_num
  -- the adjusted triple when the error is non-zero
  have hMain : allocError ⟨p, n, g, T⟩ ≠ 0 →
      (adjustedPcts ⟨p, n, g, T⟩).1 + (adjustedPcts ⟨p, n, g, T⟩).2.1 +
          (adjustedPcts ⟨p, n, g, T⟩).2.2 = 100 ∧
        0 ≤ (adjustedPcts ⟨p, n, g, T⟩).1 ∧ 0 ≤ (adjustedPcts ⟨p, n, g, T⟩).2.1 ∧
        0 ≤ (adjustedPcts ⟨p, n, g, T⟩).2.2 := by
    intro hne
    have hup : jsRound (n / T * 100) - n / T * 100 ≤ |n / T * 100 - jsRound (n / T * 100)| := by
      rw [abs_sub_comm]; exact le_abs_self _
    have hug : jsRound (g / T * 100) - g / T * 100 ≤ |g / T * 100 - jsRound (g / T * 100)| := by
      rw [abs_sub_comm]; exact le_abs_self _
    have hupp : jsRound (p / T * 100) - p / T * 100 ≤ |p / T * 100 - jsRound (p / T * 100)| := by
      rw [abs_sub_comm]; exact le_abs_self _
    rcases hTri with hEm | hE0 | hEp
    · -- error = -1: the rounded values sum to 101 and the selected category is ≥ 1
      have hsum : jsRound (p / T * 100) + jsRound (n / T * 100) + jsRound (g / T * 100) = 101 := by
        rw [hErr] at hEm; linarith
      have hdelta : adjustDelta ⟨p, n, g, T⟩ = -1 := by
        unfold adjustDelta
        rw [hEm]; norm_num
      rcases hkey : adjustKey ⟨p, n, g, T⟩ with _ | _ | _
      · -- positivo selected
        have hC := adjustKey_positivo hkey
        rw [hdP, hdN, hdG] at hC
        have hk1 : 1 ≤ jsRound (p / T * 100) := by
          by_contra hlt
          push_neg at hlt
          have hz : jsRound (p / T * 100) = 0 := jsRound_int_bounds hP0 hlt
          have hez : p / T * 100 < 1 / 2 := jsRound_eq_zero_imp hz
          rw [hz, sub_zero, abs_of_nonneg hP0] at hC
          rw [hz] at hsum
          linarith [hC.1, hC.2, hup, hug]
        have hAdjEq : adjustedPcts ⟨p, n, g, T⟩ =
            (jsRound (p / T * 100) + -1, jsRound (n / T * 100), jsRound (g / T * 100)) := by
          unfold adjustedPcts
          rw [hkey, hdelta]
          simp [roundedPcts, exactPcts]
        rw [hAdjEq]
        exact ⟨by linarith, by linarith, hkN0, hkG0⟩
      · -- neutro selected
        have hC := adjustKey_neutro hkey
        rw [hdP, hdN, hdG] at hC
        have hk1 : 1 ≤ jsRound (n / T * 100) := by
          by_contra hlt
          push_neg at hlt
          have hz : jsRound (n / T * 100) = 0 := jsRound_int_bounds hN0 hlt
          have hez : n / T * 100 < 1 / 2 := jsRound_eq_zero_imp hz
          rw [hz, sub_zero, abs_of_nonneg hN0] at hC
          rw [hz] at hsum
          linarith [hC.1, hC.2, hupp, hug]
        have hAdjEq : adjustedPcts ⟨p, n, g, T⟩ =
            (jsRound (p / T * 100), jsRound (n / T * 100) + -1, jsRound (g / T * 100)) := by
          unfold adjustedPcts
          rw [hkey, hdelta]
          simp [roundedPcts, exactPcts]
        rw [hAdjEq]
        exact ⟨by linarith, hkP0, by linarith, hkG0⟩
      · -- negativo selected
        have hC := adjustKey_negativo hkey
        rw [hdP, hdN, hdG] at hC
        have hk1 : 1 ≤ jsRound (g / T * 100) := by
          by_contra hlt
          push_neg at hlt
          have hz : jsRound (g / T * 100) = 0 := jsRound_int_bounds hG0 hlt
          have hez : g / T * 100 < 1 / 2 := jsRound_eq_zero_imp hz
          rw [hz, sub_zero, abs_of_nonneg hG0] at hC
          rw [hz] at hsum
          linarith [hC.1, hC.2, hupp, hup]
        have hAdjEq : adjustedPcts ⟨p, n, g, T⟩ =
            (jsRound (p / T * 100), jsRound (n / T * 100), jsRound (g / T * 100) + -1) := by
          unfold adjustedPcts
          rw [hkey, hdelta]
          simp [roundedPcts, exactPcts]
        rw [hAdjEq]
        exact ⟨by linarith, hkP0, hkN0, by linarith⟩
    · exact absurd hE0 hne
    · -- error = +1: the rounded values sum to 99 and the bump is +1
      have hsum : jsRound (p / T * 100) + jsRound (n / T * 100) + jsRound (g / T * 100) = 99 := by
        rw [hErr] at hEp; linarith
      have hdelta : adjustDelta ⟨p, n, g, T⟩ = 1 := by
        unfold adjustDelta
        rw [hEp]; norm_num
      rcases hkey : adjustKey ⟨p, n, g, T⟩ with _ | _ | _
      · have hAdjEq : adjustedPcts ⟨p, n, g, T⟩ =
            (jsRound (p / T * 100) + 1, jsRound (n / T * 100), jsRound (g / T * 100)) := by
          unfold adjustedPcts
          rw [hkey, hdelta]
          simp [roundedPcts, exactPcts]
        rw [hAdjEq]
        exact ⟨by linarith, by linarith, hkN0, hkG0⟩
      · have hAdjEq : adjustedPcts ⟨p, n, g, T⟩ =
            (jsRound (p / T * 100), jsRound (n / T * 100) + 1, jsRound (g / T * 100)) := by
          unfold adjustedPcts
          rw [hkey, hdelta]
          simp [roundedPcts, exactPcts]
        rw [hAdjEq]
        exact ⟨by linarith, hkP0, by linarith, hkG0⟩
      · have hAdjEq : adjustedPcts ⟨p, n, g, T⟩ =
            (jsRound (p / T * 100), jsRound (n / T * 100), jsRound (g / T * 100) + 1) := by
          unfold adjustedPcts
          rw [hkey, hdelta]
          simp [roundedPcts, exactPcts]
        rw [hAdjEq]
        exact ⟨by linarith, hkP0, hkN0, by linarith⟩
  refine ⟨hTri, hMain, ?_⟩
  by_cases hE0 : allocError ⟨p, n, g, T⟩ = 0
  · have hsum : jsRound (p / T * 100) + jsRound (n / T * 100) + jsRound (g / T * 100) = 100 := by
      rw [hErr] at hE0; linarith
    have hCalc : calculatePercentages ⟨p, n, g, T⟩ =
        ⟨jsRound (p / T * 100), jsRound (n / T * 100), jsRound (g / T * 100)⟩ := by
      have hT0c : ¬((⟨p, n, g, T⟩ : SentimentData).total = 0) := hT0
      unfold calculatePercentages
      rw [if_neg hT0c, if_pos hE0]
      rfl
    rw [hCalc]
    exact ⟨hkP0, hkN0, hkG0, hsum⟩
  · obtain ⟨hSum100, h01, h02, h03⟩ := hMain hE0
    have hCond : ¬((adjustedPcts ⟨p, n, g, T⟩).1 + (adjustedPcts ⟨p, n, g, T⟩).2.1 +
        (adjustedPcts ⟨p, n, g, T⟩).2.2 ≠ 100) := not_not_intro hSum100
    have hCalc : calculatePercentages ⟨p, n, g, T⟩ =
        ⟨(adjustedPcts ⟨p, n, g, T⟩).1, (adjustedPcts ⟨p, n, g, T⟩).2.1,
          (adjustedPcts ⟨p, n, g, T⟩).2.2⟩ := by
      have hT0c : ¬((⟨p, n, g, T⟩ : SentimentData).total = 0) := hT0
      unfold calculatePercentages
      rw [if_neg hT0c, if_neg hE0, if_neg hCond]
    rw [hCalc]
    exact ⟨h01, h02, h03, hSum100⟩

/-- The predicate that a rational is an integer value. -/
def IsInt (x : ℚ) : Prop := ∃ m : ℤ, x = (m : ℚ)

theorem IsInt.add {x y : ℚ} : IsInt x → IsInt y → IsInt (x + y)
  | ⟨m, hm⟩, ⟨k, hk⟩ => ⟨m + k, by rw [hm, hk]; push_cast; ring⟩

theorem IsInt.sub {x y : ℚ} : IsInt x → IsInt y → IsInt (x - y)
  | ⟨m, hm⟩, ⟨k, hk⟩ => ⟨m - k, by rw [hm, hk]; push_cast; ring⟩

theorem isInt_jsRound (x : ℚ) : IsInt (jsRound x) := ⟨⌊x + 1 / 2⌋, rfl⟩

/-- Every branch of the allocator produces integer-valued components. -/
theorem calculatePercentages_isInt (d : SentimentData) :
    IsInt (calculatePercentages d).positivo ∧ IsInt (calculatePercentages d).neutro ∧
      IsInt (calculatePercentages d).negativo := by
  have hr1 : IsInt (roundedPcts d).1 := isInt_jsRound _
  have hr2 : IsInt (roundedPcts d).2.1 := isInt_jsRound _
  have hr3 : IsInt (roundedPcts d).2.2 := isInt_jsRound _
  have hd : IsInt (adjustDelta d) := by
    unfold adjustDelta
    split_ifs
    · exact ⟨1, by norm_num⟩
    · exact ⟨-1, by norm_num⟩
  have hA : IsInt (adjustedPcts d).1 ∧ IsInt (adjustedPcts d).2.1 ∧
      IsInt (adjustedPcts d).2.2 := by
    unfold adjustedPcts
    split_ifs
    · exact ⟨hr1.add hd, hr2, hr3⟩
    · exact ⟨hr1, hr2.add hd, hr3⟩
    · exact ⟨hr1, hr2, hr3.add hd⟩
  obtain ⟨ha1, ha2, ha3⟩ := hA
  have h100 : IsInt (100 : ℚ) := ⟨100, by norm_num⟩
  unfold calculatePercentages
  split_ifs
  · exact ⟨⟨0, by norm_num⟩, ⟨0, by norm_num⟩, ⟨0, by norm_num⟩⟩
  · exact ⟨hr1, hr2, hr3⟩
  · exact ⟨ha1, ha2, ha3.add (h100.sub ((ha1.add ha2).add ha3))⟩
  · exact ⟨ha1, ha2, ha3⟩

/-- C1: for all non-negative integers (a, b, c) with total = a + b + c > 0, the
category proportion allocator `calculatePercentages` returns three non-negative
integers summing to exactly 100; for total = 0 it returns (0, 0, 0). -/
theorem percentage_invariant (a b c : ℕ) :
    (0 < a + b + c →
      0 ≤ (calculatePercentages ⟨a, b, c, (a : ℚ) + b + c⟩).positivo ∧
      0 ≤ (calculatePercentages ⟨a, b, c, (a : ℚ) + b + c⟩).neutro ∧
      0 ≤ (calculatePercentages ⟨a, b, c, (a : ℚ) + b + c⟩).negativo ∧
      IsInt (calculatePercentages ⟨a, b, c, (a : ℚ) + b + c⟩).positivo ∧
      IsInt (calculatePercentages ⟨a, b, c, (a : ℚ) + b + c⟩).neutro ∧
      IsInt (calculatePercentages ⟨a, b, c, (a : ℚ) + b + c⟩).negativo ∧
      (calculatePercentages ⟨a, b, c, (a : ℚ) + b + c⟩).positivo +
          (calculatePercentages ⟨a, b, c, (a : ℚ) + b + c⟩).neutro +
          (calculatePercentages ⟨a, b, c, (a : ℚ) + b + c⟩).negativo = 100) ∧
    calculatePercentages ⟨a, b, c, 0⟩ = ⟨0, 0, 0⟩ := by
  constructor
  · intro h
    have hT : (0 : ℚ) < (a : ℚ) + b + c := by exact_mod_cast h
    have hcore := alloc_core a b c ((a : ℚ) + b + c) (by positivity) (by positivity)
      (by positivity) hT rfl
    obtain ⟨hi1, hi2, hi3⟩ := calculatePercentages_isInt ⟨a, b, c, (a : ℚ) + b + c⟩
    exact ⟨hcore.2.2.1, hcore.2.2.2.1, hcore.2.2.2.2.1, hi1, hi2, hi3, hcore.2.2.2.2.2⟩
  · unfold calculatePercentages
    rw [if_pos (show ((⟨a, b, c, 0⟩ : SentimentData)).total = 0 from rfl)]

/-- Witness for C1 at the concrete input (2, 1, 1). -/
theorem percentage_invariant_witness :
    0 < 2 + 1 + 1 ∧
    (0 ≤ (calculatePercentages ⟨((2 : ℕ) : ℚ), ((1 : ℕ) : ℚ), ((1 : ℕ) : ℚ),
        ((2 : ℕ) : ℚ) + ((1 : ℕ) : ℚ) + ((1 : ℕ) : ℚ)⟩).positivo ∧
      0 ≤ (calculatePercentages ⟨((2 : ℕ) : ℚ), ((1 : ℕ) : ℚ), ((1 : ℕ) : ℚ),
        ((2 : ℕ) : ℚ) + ((1 : ℕ) : ℚ) + ((1 : ℕ) : ℚ)⟩).neutro ∧
      0 ≤ (calculatePercentages ⟨((2 : ℕ) : ℚ), ((1 : ℕ) : ℚ), ((1 : ℕ) : ℚ),
        ((2 : ℕ) : ℚ) + ((1 : ℕ) : ℚ) + ((1 : ℕ) : ℚ)⟩).negativo ∧
      IsInt (calculatePercentages ⟨((2 : ℕ) : ℚ), ((1 : ℕ) : ℚ), ((1 : ℕ) : ℚ),
        ((2 : ℕ) : ℚ) + ((1 : ℕ) : ℚ) + ((1 : ℕ) : ℚ)⟩).positivo ∧
      IsInt (calculatePercentages ⟨((2 : ℕ) : ℚ), ((1 : ℕ) : ℚ), ((1 : ℕ) : ℚ),
        ((2 : ℕ) : ℚ) + ((1 : ℕ) : ℚ) + ((1 : ℕ) : ℚ)⟩).neutro ∧
      IsInt (calculatePercentages ⟨((2 : ℕ) : ℚ), ((1 : ℕ) : ℚ), ((1 : ℕ) : ℚ),
        ((2 : ℕ) : ℚ) + ((1 : ℕ) : ℚ) + ((1 : ℕ) : ℚ)⟩).negativo ∧
      (calculatePercentages ⟨((2 : ℕ) : ℚ), ((1 : ℕ) : ℚ), ((1 : ℕ) : ℚ),
          ((2 : ℕ) : ℚ) + ((1 : ℕ) : ℚ) + ((1 : ℕ) : ℚ)⟩).positivo +
        (calculatePercentages ⟨((2 : ℕ) : ℚ), ((1 : ℕ) : ℚ), ((1 : ℕ) : ℚ),
          ((2 : ℕ) : ℚ) + ((1 : ℕ) : ℚ) + ((1 : ℕ) : ℚ)⟩).neutro +
        (calculatePercentages ⟨((2 : ℕ) : ℚ), ((1 : ℕ) : ℚ), ((1 : ℕ) : ℚ),
          ((2 : ℕ) : ℚ) + ((1 : ℕ) : ℚ) + ((1 : ℕ) : ℚ)⟩).negativo = 100) :=
  ⟨by norm_num, (percentage_invariant 2 1 1).1 (by norm_num)⟩

/-- C6: for input counts (1, 1, 1) with total 3 the allocator rounds each exact
percentage 33.33… to 33 (sum 99, error +1) and bumps exactly one category to 34;
the bumped category is the one with the largest fractional deviation, with the
deterministic stable-input-order tie-break selecting `positivo`, so the result
is (34, 33, 33). -/
theorem largest_remainder_example :
    roundedPcts ⟨1, 1, 1, 3⟩ = (33, 33, 33) ∧
    allocError ⟨1, 1, 1, 3⟩ = 1 ∧
    adjustKey ⟨1, 1, 1, 3⟩ = SentKey.positivo ∧
    calculatePercentages ⟨1, 1, 1, 3⟩ = ⟨34, 33, 33⟩ := by
  have heP : (exactPcts ⟨1, 1, 1, 3⟩).1 = 100 / 3 := by unfold exactPcts; norm_num
  have heN : (exactPcts ⟨1, 1, 1, 3⟩).2.1 = 100 / 3 := by unfold exactPcts; norm_num
  have heG : (exactPcts ⟨1, 1, 1, 3⟩).2.2 = 100 / 3 := by unfold exactPcts; norm_num
  have hjr : jsRound (100 / 3) = 33 := by unfold jsRound; norm_num
  have hr : roundedPcts ⟨1, 1, 1, 3⟩ = (33, 33, 33) := by
    unfold roundedPcts
    rw [heP, heN, heG, hjr]
  have hkP : (roundedPcts ⟨1, 1, 1, 3⟩).1 = 33 := by rw [hr]
  have hkN : (roundedPcts ⟨1, 1, 1, 3⟩).2.1 = 33 := by rw [hr]
  have hkG : (roundedPcts ⟨1, 1, 1, 3⟩).2.2 = 33 := by rw [hr]
  have herr : allocError ⟨1, 1, 1, 3⟩ = 1 := by
    unfold allocError
    rw [hkP, hkN, hkG]
    norm_num
  have hdev1 : devP ⟨1, 1, 1, 3⟩ = |(100 : ℚ) / 3 - 33| := by unfold devP; rw [heP, hkP]
  have hdev2 : devN ⟨1, 1, 1, 3⟩ = |(100 : ℚ) / 3 - 33| := by unfold devN; rw [heN, hkN]
  have hdev3 : devG ⟨1, 1, 1, 3⟩ = |(100 : ℚ) / 3 - 33| := by unfold devG; rw [heG, hkG]
  have hkey : adjustKey ⟨1, 1, 1, 3⟩ = SentKey.positivo := by
    unfold adjustKey
    rw [hdev1, hdev2, hdev3, if_pos ⟨le_refl _, le_refl _⟩]
  have hdelta : adjustDelta ⟨1, 1, 1, 3⟩ = 1 := by
    unfold adjustDelta
    rw [herr]
    norm_num
  have hadj : adjustedPcts ⟨1, 1, 1, 3⟩ = (34, 33, 33) := by
    unfold adjustedPcts
    rw [hkey, hdelta, if_pos rfl, hkP, hkN, hkG]
    norm_num
  have hsum : (adjustedPcts ⟨1, 1, 1, 3⟩).1 + (adjustedPcts ⟨1, 1, 1, 3⟩).2.1 +
      (adjustedPcts ⟨1, 1, 1, 3⟩).2.2 = 100 := by
    rw [hadj]
    norm_num
  have hcalc : calculatePercentages ⟨1, 1, 1, 3⟩ = ⟨34, 33, 33⟩ := by
    unfold calculatePercentages
    rw [if_neg (show ¬((⟨1, 1, 1, 3⟩ : SentimentData).total = 0) by norm_num),
      if_neg (show ¬(allocError ⟨1, 1, 1, 3⟩ = 0) by rw [herr]; norm_num),
      if_neg (not_not_intro hsum), hadj]
  exact ⟨hr, herr, hkey, hcalc⟩

/-- C9: under the precondition total = a + b + c with a, b, c non-negative and
total > 0, the rounding error always lies in {-1, 0, 1} and the single ±1
adjustment of the largest-deviation category restores the sum to exactly 100,
so the defensive fallback branch (`finalSum !== 100`) of `calculatePercentages`
is unreachable. -/
theorem fallback_unreachable (a b c : ℕ) (h : 0 < a + b + c) :
    (allocError ⟨a, b, c, (a : ℚ) + b + c⟩ = -1 ∨
      allocError ⟨a, b, c, (a : ℚ) + b + c⟩ = 0 ∨
      allocError ⟨a, b, c, (a : ℚ) + b + c⟩ = 1) ∧
    (allocError ⟨a, b, c, (a : ℚ) + b + c⟩ ≠ 0 →
      (adjustedPcts ⟨a, b, c, (a : ℚ) + b + c⟩).1 +
          (adjustedPcts ⟨a, b, c, (a : ℚ) + b + c⟩).2.1 +
          (adjustedPcts ⟨a, b, c, (a : ℚ) + b + c⟩).2.2 = 100) := by
  have hT : (0 : ℚ) < (a : ℚ) + b + c := by exact_mod_cast h
  have hcore := alloc_core a b c ((a : ℚ) + b + c) (by positivity) (by positivity)
    (by positivity) hT rfl
  exact ⟨hcore.1, fun hne => (hcore.2.1 hne).1⟩

/-- Witness for C9 at the concrete input (3, 1, 1). -/
theorem fallback_unreachable_witness :
    0 < 3 + 1 + 1 ∧
    ((allocError ⟨((3 : ℕ) : ℚ), ((1 : ℕ) : ℚ), ((1 : ℕ) : ℚ),
        ((3 : ℕ) : ℚ) + ((1 : ℕ) : ℚ) + ((1 : ℕ) : ℚ)⟩ = -1 ∨
      allocError ⟨((3 : ℕ) : ℚ), ((1 : ℕ) : ℚ), ((1 : ℕ) : ℚ),
        ((3 : ℕ) : ℚ) + ((1 : ℕ) : ℚ) + ((1 : ℕ) : ℚ)⟩ = 0 ∨
      allocError ⟨((3 : ℕ) : ℚ), ((1 : ℕ) : ℚ), ((1 : ℕ) : ℚ),
        ((3 : ℕ) : ℚ) + ((1 : ℕ) : ℚ) + ((1 : ℕ) : ℚ)⟩ = 1) ∧
    (allocError ⟨((3 : ℕ) : ℚ), ((1 : ℕ) : ℚ), ((1 : ℕ) : ℚ),
        ((3 : ℕ) : ℚ) + ((1 : ℕ) : ℚ) + ((1 : ℕ) : ℚ)⟩ ≠ 0 →
      (adjustedPcts ⟨((3 : ℕ) : ℚ), ((1 : ℕ) : ℚ), ((1 : ℕ) : ℚ),
          ((3 : ℕ) : ℚ) + ((1 : ℕ) : ℚ) + ((1 : ℕ) : ℚ)⟩).1 +
        (adjustedPcts ⟨((3 : ℕ) : ℚ), ((1 : ℕ) : ℚ), ((1 : ℕ) : ℚ),
          ((3 : ℕ) : ℚ) + ((1 : ℕ) : ℚ) + ((1 : ℕ) : ℚ)⟩).2.1 +
        (adjustedPcts ⟨((3 : ℕ) : ℚ), ((1 : ℕ) : ℚ), ((1 : ℕ) : ℚ),
          ((3 : ℕ) : ℚ) + ((1 : ℕ) : ℚ) + ((1 : ℕ) : ℚ)⟩).2.2 = 100)) :=
  ⟨by norm_num, fallback_unreachable 3 1 1 (by norm_num)⟩

/-! ### Geometry and spatial index (`usePixiBubbleChart.ts`)

The quadtree and the physics integrator are embedded generically over a
`LinearOrderedField α` modelling JavaScript numbers; theorems instantiate `α` at
`ℚ` (for computation) or `ℝ` (when `Math.sqrt` is involved). -/

/-- The `Rectangle` record of the source. -/
structure Rect (α : Type) where
  x : α
  y : α
  width : α
  height : α
deriving DecidableEq

/-- The `Bubble` record of the source.  JavaScript object identity (reference
equality of the distinct container objects) is modelled by the `idx` field. -/
structure Bubble (α : Type) where
  idx : ℕ
  x : α
  y : α
  vx : α
  vy : α
  radius : α
  alpha : α
deriving DecidableEq

section Geometry

variable {α : Type} [LinearOrderedField α]

instance : Inhabited (Bubble α) := ⟨⟨0, 0, 0, 0, 0, 0, 0⟩⟩

/-- `QuadTree.contains` of the src variant: the bubble's centre lies in the
half-open boundary rectangle (a point-containment test). -/
def qtContains (r : Rect α) (b : Bubble α) : Prop :=
  r.x ≤ b.x ∧ b.x < r.x + r.width ∧ r.y ≤ b.y ∧ b.y < r.y + r.height

instance (r : Rect α) (b : Bubble α) : Decidable (qtContains r b) :=
  inferInstanceAs (Decidable (r.x ≤ b.x ∧ b.x < r.x + r.width ∧ r.y ≤ b.y ∧
    b.y < r.y + r.height))

/-- `QuadTree.pointInRectangle` of the src variant: the same half-open
point-containment test, used to filter bubbles during `queryRange`. -/
def pointInRect (b : Bubble α) (r : Rect α) : Prop :=
  r.x ≤ b.x ∧ b.x < r.x + r.width ∧ r.y ≤ b.y ∧ b.y < r.y + r.height

instance (b : Bubble α) (r : Rect α) : Decidable (pointInRect b r) :=
  inferInstanceAs (Decidable (r.x ≤ b.x ∧ b.x < r.x + r.width ∧ r.y ≤ b.y ∧
    b.y < r.y + r.height))

/-- `QuadTree.intersects`: the node boundary and the query range overlap
(the source negates four strict separations). -/
def rectIntersects (bd range : Rect α) : Prop :=
  ¬(range.x > bd.x + bd.width ∨ range.x + range.width < bd.x ∨
    range.y > bd.y + bd.height ∨ range.y + range.height < bd.y)

instance (bd range : Rect α) : Decidable (rectIntersects bd range) :=
  inferInstanceAs (Decidable (¬(range.x > bd.x + bd.width ∨ range.x + range.width < bd.x ∨
    range.y > bd.y + bd.height ∨ range.y + range.height < bd.y)))

/-- The north-east quadrant created by `subdivide`. -/
def neRect (r : Rect α) : Rect α := ⟨r.x + r.width / 2, r.y, r.width / 2, r.height / 2⟩

/-- The north-west quadrant created by `subdivide`. -/
def nwRect (r : Rect α) : Rect α := ⟨r.x, r.y, r.width / 2, r.height / 2⟩

/-- The south-east quadrant created by `subdivide`. -/
def seRect (r : Rect α) : Rect α :=
  ⟨r.x + r.width / 2, r.y + r.height / 2, r.width / 2, r.height / 2⟩

/-- The south-west quadrant created by `subdivide`. -/
def swRect (r : Rect α) : Rect α := ⟨r.x, r.y + r.height / 2, r.width / 2, r.height / 2⟩

/-- Value-owned quadtree nodes: a `leaf` is an undivided node, a `node` is a divided
node with its four quadrant children.  The `capacity`, `maxDepth` and `currentDepth`
fields of the source become parameters of `insert`: `rem` stands for
`maxDepth - currentDepth`, so the source test `currentDepth >= maxDepth` is `rem = 0`
and children are inserted into with `rem - 1`. -/
inductive QuadTree (α : Type) where
  | leaf (boundary : Rect α) (bubbles : List (Bubble α))
  | node (boundary : Rect α) (bubbles : List (Bubble α)) (ne nw se sw : QuadTree α)

/-- The boundary rectangle of a quadtree node. -/
def QuadTree.boundary : QuadTree α → Rect α
  | .leaf bd _ => bd
  | .node bd _ _ _ _ _ => bd

/-- The bubbles moved into the NE child by `subdivide`'s if/else-if redistribution:
those whose centre the NE quadrant contains. -/
def distNE (r : Rect α) (bs : List (Bubble α)) : List (Bubble α) :=
  bs.filter fun u => decide (qtContains (neRect r) u)

/-- The bubbles moved into the NW child by `subdivide`: rejected by NE, accepted
by NW. -/
def distNW (r : Rect α) (bs : List (Bubble α)) : List (Bubble α) :=
  bs.filter fun u => decide (¬qtContains (neRect r) u ∧ qtContains (nwRect r) u)

/-- The bubbles moved into the SE child by `subdivide`. -/
def distSE (r : Rect α) (bs : List (Bubble α)) : List (Bubble α) :=
  bs.filter fun u => decide (¬qtContains (neRect r) u ∧ ¬qtContains (nwRect r) u ∧
    qtContains (seRect r) u)

/-- The bubbles moved into the SW child by `subdivide`. -/
def distSW (r : Rect α) (bs : List (Bubble α)) : List (Bubble α) :=
  bs.filter fun u => decide (¬qtContains (neRect r) u ∧ ¬qtContains (nwRect r) u ∧
    ¬qtContains (seRect r) u ∧ qtContains (swRect r) u)

/-- `QuadTree.insert` of the src variant.  Order of checks as in the source:
the containment gate, the capacity check of an undivided node, the depth cap
(`rem = 0`), subdivision of a full leaf, the NE/NW/SE/SW first-acceptor chain,
and the retain-at-this-node fallback.  A failed insert returns the tree
unchanged together with `false`. -/
def QuadTree.insert (cap : ℕ) : ℕ → QuadTree α → Bubble α → QuadTree α × Bool
  | 0, .leaf bd bs, b =>
    if qtContains bd b then (.leaf bd (bs ++ [b]), true) else (.leaf bd bs, false)
  | 0, .node bd bs ne nw se sw, b =>
    if qtContains bd b then (.node bd (bs ++ [b]) ne nw se sw, true)
    else (.node bd bs ne nw se sw, false)
  | rem + 1, .leaf bd bs, b =>
    if qtContains bd b then
      if bs.length < cap then (.leaf bd (bs ++ [b]), true)
      else
        match QuadTree.insert cap rem (.leaf (neRect bd) (distNE bd bs)) b with
        | (ne2, true) => (.node bd [] ne2 (.leaf (nwRect bd) (distNW bd bs))
            (.leaf (seRect bd) (distSE bd bs)) (.leaf (swRect bd) (distSW bd bs)), true)
        | (ne2, false) =>
          match QuadTree.insert cap rem (.leaf (nwRect bd) (distNW bd bs)) b with
          | (nw2, true) => (.node bd [] ne2 nw2
              (.leaf (seRect bd) (distSE bd bs)) (.leaf (swRect bd) (distSW bd bs)), true)
          | (nw2, false) =>
            match QuadTree.insert cap rem (.leaf (seRect bd) (distSE bd bs)) b with
            | (se2, true) => (.node bd [] ne2 nw2 se2
                (.leaf (swRect bd) (distSW bd bs)), true)
            | (se2, false) =>
              match QuadTree.insert cap rem (.leaf (swRect bd) (distSW bd bs)) b with
              | (sw2, true) => (.node bd [] ne2 nw2 se2 sw2, true)
              | (sw2, false) => (.node bd [b] ne2 nw2 se2 sw2, true)
    else (.leaf bd bs, false)
  | rem + 1, .node bd bs ne nw se sw, b =>
    if qtContains bd b then
      match QuadTree.insert cap rem ne b with
      | (ne2, true) => (.node bd bs ne2 nw se sw, true)
      | (ne2, false) =>
        match QuadTree.insert cap rem nw b with
        | (nw2, true) => (.node bd bs ne2 nw2 se sw, true)
        | (nw2, false) =>
          match QuadTree.insert cap rem se b with
          | (se2, true) => (.node bd bs ne2 nw2 se2 sw, true)
          | (se2, false) =>
            match QuadTree.insert cap rem sw b with
            | (sw2, true) => (.node bd bs ne2 nw2 se2 sw2, true)
            | (sw2, false) => (.node bd (bs ++ [b]) ne2 nw2 se2 sw2, true)
    else (.node bd bs ne nw se sw, false)

/-- All bubbles stored anywhere in the tree, own list first, then the NE, NW, SE,
SW subtrees. -/
def QuadTree.allBubbles : QuadTree α → List (Bubble α)
  | .leaf _ bs => bs
  | .node _ bs ne nw se sw =>
    bs ++ (ne.allBubbles ++ (nw.allBubbles ++ (se.allBubbles ++ sw.allBubbles)))

/-- `QuadTree.queryRange` of the src variant: prune on `intersects`, filter the
node's own bubbles by `pointInRectangle`, then recurse into the four children. -/
def QuadTree.queryRange : QuadTree α → Rect α → List (Bubble α)
  | .leaf bd bs, range =>
    if rectIntersects bd range then bs.filter (fun u => decide (pointInRect u range))
    else []
  | .node bd bs ne nw se sw, range =>
    if rectIntersects bd range then
      bs.filter (fun u => decide (pointInRect u range)) ++
        (ne.queryRange range ++ (nw.queryRange range ++
          (se.queryRange range ++ sw.queryRange range)))
    else []

/-- Insert a batch of bubbles in order (the per-frame rebuild loop). -/
def insertAll (cap rem : ℕ) (t : QuadTree α) (bs : List (Bubble α)) : QuadTree α :=
  bs.foldl (fun acc b => (QuadTree.insert cap rem acc b).1) t

/-- A rectangle with non-negative dimensions. -/
def RectNonneg (r : Rect α) : Prop := 0 ≤ r.width ∧ 0 ≤ r.height

/-- One rectangle included in another (as point sets). -/
def SubRect (s r : Rect α) : Prop :=
  r.x ≤ s.x ∧ s.x + s.width ≤ r.x + r.width ∧ r.y ≤ s.y ∧ s.y + s.height ≤ r.y + r.height

/-- Structural well-formedness of a quadtree as the source constructs it: every
stored bubble's centre is inside the node that stores it, dimensions are
non-negative, and children sit on the four exact quadrants of their parent. -/
def QuadTree.WF : QuadTree α → Prop
  | .leaf bd bs => RectNonneg bd ∧ ∀ u ∈ bs, qtContains bd u
  | .node bd bs ne nw se sw =>
    RectNonneg bd ∧ (∀ u ∈ bs, qtContains bd u) ∧
      ne.boundary = neRect bd ∧ nw.boundary = nwRect bd ∧
      se.boundary = seRect bd ∧ sw.boundary = swRect bd ∧
      ne.WF ∧ nw.WF ∧ se.WF ∧ sw.WF

/-! Geometric facts about quadrants, sub-rectangles and the containment tests. -/

theorem subRect_refl (r : Rect α) : SubRect r r :=
  ⟨le_refl _, le_refl _, le_refl _, le_refl _⟩

theorem subRect_trans {s r t : Rect α} (h1 : SubRect s r) (h2 : SubRect r t) :
    SubRect s t :=
  ⟨le_trans h2.1 h1.1, le_trans h1.2.1 h2.2.1, le_trans h2.2.2.1 h1.2.2.1,
    le_trans h1.2.2.2 h2.2.2.2⟩

theorem rectNonneg_quad {r : Rect α} (hr : RectNonneg r) :
    RectNonneg (neRect r) ∧ RectNonneg (nwRect r) ∧ RectNonneg (seRect r) ∧
      RectNonneg (swRect r) := by
  obtain ⟨hw, hh⟩ := hr
  refine ⟨⟨?_, ?_⟩, ⟨?_, ?_⟩, ⟨?_, ?_⟩, ⟨?_, ?_⟩⟩ <;>
    simp only [neRect, nwRect, seRect, swRect] <;> linarith

theorem subRect_quad {r : Rect α} (hr : RectNonneg r) :
    SubRect (neRect r) r ∧ SubRect (nwRect r) r ∧ SubRect (seRect r) r ∧
      SubRect (swRect r) r := by
  obtain ⟨hw, hh⟩ := hr
  refine ⟨⟨?_, ?_, ?_, ?_⟩, ⟨?_, ?_, ?_, ?_⟩, ⟨?_, ?_, ?_, ?_⟩, ⟨?_, ?_, ?_, ?_⟩⟩ <;>
    simp only [neRect, nwRect, seRect, swRect, SubRect] <;> linarith

theorem rectIntersects_of_subRect {s r : Rect α} (hs : RectNonneg s) (h : SubRect s r) :
    rectIntersects s r := by
  obtain ⟨hw, hh⟩ := hs
  obtain ⟨h1, h2, h3, h4⟩ := h
  unfold rectIntersects
  push_neg
  exact ⟨by linarith, by linarith, by linarith, by linarith⟩

/-- Exactly one branch of `subdivide`'s if/else-if chain accepts a bubble whose
centre the parent contains: the four half-open quadrants partition the parent. -/
theorem quadrant_cover {r : Rect α} {u : Bubble α} (hr : RectNonneg r)
    (hu : qtContains r u) :
    qtContains (neRect r) u ∨
    (¬qtContains (neRect r) u ∧ qtContains (nwRect r) u) ∨
    (¬qtContains (neRect r) u ∧ ¬qtContains (nwRect r) u ∧ qtContains (seRect r) u) ∨
    (¬qtContains (neRect r) u ∧ ¬qtContains (nwRect r) u ∧ ¬qtContains (seRect r) u ∧
      qtContains (swRect r) u) := by
  obtain ⟨hx1, hx2, hy1, hy2⟩ := hu
  obtain ⟨hw, hh⟩ := hr
  simp only [qtContains, neRect, nwRect, seRect, swRect]
  rcases le_or_lt (r.x + r.width / 2) u.x with hx | hx <;>
    rcases lt_or_le u.y (r.y + r.height / 2) with hy | hy
  · exact Or.inl ⟨hx, by linarith, hy1, hy⟩
  · refine Or.inr (Or.inr (Or.inl ⟨fun hc => ?_, fun hc => ?_, hx, by linarith, hy,
      by linarith⟩))
    · exact absurd hc.2.2.2 (not_lt.mpr hy)
    · exact absurd hc.2.1 (not_lt.mpr hx)
  · refine Or.inr (Or.inl ⟨fun hc => ?_, hx1, hx, hy1, hy⟩)
    · exact absurd hc.1 (not_le.mpr hx)
  · refine Or.inr (Or.inr (Or.inr ⟨fun hc => ?_, fun hc => ?_, fun hc => ?_, hx1, hx, hy,
      by linarith⟩))
    · exact absurd hc.1 (not_le.mpr hx)
    · exact absurd hc.2.2.2 (not_lt.mpr hy)
    · exact absurd hc.1 (not_le.mpr hx)

theorem qtContains_of_ne {r : Rect α} {u : Bubble α} (hr : RectNonneg r)
    (h : qtContains (neRect r) u) : qtContains r u := by
  obtain ⟨hw, hh⟩ := hr
  obtain ⟨h1, h2, h3, h4⟩ := h
  simp only [qtContains, neRect] at *
  exact ⟨by linarith, by linarith, by linarith, by linarith⟩

theorem qtContains_of_nw {r : Rect α} {u : Bubble α} (hr : RectNonneg r)
    (h : qtContains (nwRect r) u) : qtContains r u := by
  obtain ⟨hw, hh⟩ := hr
  obtain ⟨h1, h2, h3, h4⟩ := h
  simp only [qtContains, nwRect] at *
  exact ⟨by linarith, by linarith, by linarith, by linarith⟩

theorem qtContains_of_se {r : Rect α} {u : Bubble α} (hr : RectNonneg r)
    (h : qtContains (seRect r) u) : qtContains r u := by
  obtain ⟨hw, hh⟩ := hr
  obtain ⟨h1, h2, h3, h4⟩ := h
  simp only [qtContains, seRect] at *
  exact ⟨by linarith, by linarith, by linarith, by linarith⟩

theorem qtContains_of_sw {r : Rect α} {u : Bubble α} (hr : RectNonneg r)
    (h : qtContains (swRect r) u) : qtContains r u := by
  obtain ⟨hw, hh⟩ := hr
  obtain ⟨h1, h2, h3, h4⟩ := h
  simp only [qtContains, swRect] at *
  exact ⟨by linarith, by linarith, by linarith, by linarith⟩

/-- `subdivide` loses no bubble: the four redistributed lists are a permutation of
the node's list whenever every stored bubble is inside the parent. -/
theorem dist_perm {r : Rect α} (hr : RectNonneg r) :
    ∀ bs : List (Bubble α), (∀ u ∈ bs, qtContains r u) →
      (distNE r bs ++ (distNW r bs ++ (distSE r bs ++ distSW r bs))).Perm bs := by
  intro bs
  induction bs with
  | nil =>
    intro _
    simp [distNE, distNW, distSE, distSW]
  | cons u us ih =>
    intro hall
    have hu := hall u (List.mem_cons_self u us)
    have ihh := ih fun v hv => hall v (List.mem_cons_of_mem u hv)
    unfold distNE distNW distSE distSW at ihh ⊢
    simp only [List.filter_cons, decide_eq_true_eq]
    rcases quadrant_cover hr hu with h | ⟨h1, h2⟩ | ⟨h1, h2, h3⟩ | ⟨h1, h2, h3, h4⟩
    · rw [if_pos h, if_neg (fun hc => hc.1 h), if_neg (fun hc => hc.1 h),
        if_neg (fun hc => hc.1 h)]
      exact ihh.cons u
    · rw [if_neg h1, if_pos ⟨h1, h2⟩, if_neg (fun hc => hc.2.1 h2),
        if_neg (fun hc => hc.2.1 h2)]
      exact List.perm_middle.trans (ihh.cons u)
    · rw [if_neg h1, if_neg (fun hc => h2 hc.2), if_pos ⟨h1, h2, h3⟩,
        if_neg (fun hc => hc.2.2.1 h3)]
      refine List.Perm.trans ?_ (ihh.cons u)
      exact List.Perm.trans (List.Perm.append_left _ List.perm_middle) List.perm_middle
    · rw [if_neg h1, if_neg (fun hc => h2 hc.2), if_neg (fun hc => h3 hc.2.2),
        if_pos ⟨h1, h2, h3, h4⟩]
      refine List.Perm.trans ?_ (ihh.cons u)
      exact List.Perm.trans (List.Perm.append_left _ (List.Perm.trans
        (List.Perm.append_left _ List.perm_middle) List.perm_middle)) List.perm_middle

/-! Behaviour of `insert` and `queryRange`. -/

theorem insert_of_not_contains (cap rem : ℕ) (t : QuadTree α) (b : Bubble α)
    (h : ¬qtContains t.boundary b) : QuadTree.insert cap rem t b = (t, false) := by
  cases rem <;> cases t <;> simp only [QuadTree.boundary] at h <;>
    simp only [QuadTree.insert] <;> rw [if_neg h]

theorem insert_snd (cap rem : ℕ) (t : QuadTree α) (b : Bubble α) :
    ((QuadTree.insert cap rem t b).2 = true) ↔ qtContains t.boundary b := by
  constructor
  · intro htrue
    by_contra hc
    rw [insert_of_not_contains cap rem t b hc] at htrue
    exact Bool.false_ne_true htrue
  · intro h
    cases rem with
    | zero =>
      cases t <;> simp only [QuadTree.boundary] at h <;>
        simp only [QuadTree.insert] <;> rw [if_pos h]
    | succ rem =>
      cases t with
      | leaf bd bs =>
        simp only [QuadTree.boundary] at h
        simp only [QuadTree.insert]
        rw [if_pos h]
        by_cases hcap : bs.length < cap
        · rw [if_pos hcap]
        · rw [if_neg hcap]
          split
          · rfl
          · split
            · rfl
            · split
              · rfl
              · split <;> rfl
      | node bd bs ne nw se sw =>
        simp only [QuadTree.boundary] at h
        simp only [QuadTree.insert]
        rw [if_pos h]
        split
        · rfl
        · split
          · rfl
          · split
            · rfl
            · split <;> rfl

theorem queryRange_eq_filter :
    ∀ t : QuadTree α, t.WF → ∀ range : Rect α, SubRect t.boundary range →
      t.queryRange range = t.allBubbles.filter fun u => decide (pointInRect u range) := by
  intro t
  induction t with
  | leaf bd bs =>
    intro hwf range hsub
    simp only [QuadTree.boundary] at hsub
    simp only [QuadTree.queryRange, QuadTree.allBubbles]
    rw [if_pos (rectIntersects_of_subRect hwf.1 hsub)]
  | node bd bs ne nw se sw ihne ihnw ihse ihsw =>
    intro hwf range hsub
    obtain ⟨hr, hown, hbne, hbnw, hbse, hbsw, wfne, wfnw, wfse, wfsw⟩ := hwf
    simp only [QuadTree.boundary] at hsub
    have hqne : SubRect ne.boundary range := by
      rw [hbne]; exact subRect_trans (subRect_quad hr).1 hsub
    have hqnw : SubRect nw.boundary range := by
      rw [hbnw]; exact subRect_trans (subRect_quad hr).2.1 hsub
    have hqse : SubRect se.boundary range := by
      rw [hbse]; exact subRect_trans (subRect_quad hr).2.2.1 hsub
    have hqsw : SubRect sw.boundary range := by
      rw [hbsw]; exact subRect_trans (subRect_quad hr).2.2.2 hsub
    simp only [QuadTree.queryRange, QuadTree.allBubbles]
    rw [if_pos (rectIntersects_of_subRect hr hsub)]
    rw [ihne wfne range hqne, ihnw wfnw range hqnw, ihse wfse range hqse,
      ihsw wfsw range hqsw]
    simp [List.filter_append]

theorem perm_cons_append {β : Type} {b : β} {X Y : List β} (L : List β)
    (h : X.Perm (b :: Y)) : (L ++ X).Perm (b :: (L ++ Y)) :=
  (List.Perm.append_left L h).trans List.perm_middle

/-- The promises `insert` keeps on a well-formed tree: the boundary is unchanged,
well-formedness is preserved, and on success exactly one copy of the bubble is added
(the stored multiset is permuted by one `cons`). -/
def InsertSpec (cap rem : ℕ) (t : QuadTree α) (b : Bubble α) : Prop :=
  (QuadTree.insert cap rem t b).1.boundary = t.boundary ∧
  (QuadTree.insert cap rem t b).1.WF ∧
  (qtContains t.boundary b →
    (QuadTree.insert cap rem t b).1.allBubbles.Perm (b :: t.allBubbles))

theorem insert_spec (cap : ℕ) :
    ∀ (rem : ℕ) (t : QuadTree α) (b : Bubble α), t.WF → InsertSpec cap rem t b := by
  intro rem
  induction rem with
  | zero =>
    intro t b hwf
    by_cases h : qtContains t.boundary b
    · cases t with
      | leaf bd bs =>
        obtain ⟨hbd, hown⟩ := hwf
        simp only [QuadTree.boundary] at h
        refine ⟨?_, ?_, ?_⟩ <;> simp only [InsertSpec, QuadTree.insert, if_pos h]
        · rfl
        · exact ⟨hbd, fun u hu => by
            rcases List.mem_append.mp hu with hu | hu
            · exact hown u hu
            · rw [List.mem_singleton.mp hu]; exact h⟩
        · intro _
          simp [QuadTree.allBubbles]
      | node bd bs ne nw se sw =>
        obtain ⟨hbd, hown, hbne, hbnw, hbse, hbsw, wfne, wfnw, wfse, wfsw⟩ := hwf
        simp only [QuadTree.boundary] at h
        refine ⟨?_, ?_, ?_⟩ <;> simp only [InsertSpec, QuadTree.insert, if_pos h]
        · rfl
        · refine ⟨hbd, fun u hu => ?_, hbne, hbnw, hbse, hbsw, wfne, wfnw, wfse, wfsw⟩
          rcases List.mem_append.mp hu with hu | hu
          · exact hown u hu
          · rw [List.mem_singleton.mp hu]; exact h
        · intro _
          simp only [QuadTree.allBubbles, QuadTree.boundary, List.append_assoc]
          exact List.perm_middle
    · rw [InsertSpec, insert_of_not_contains cap 0 t b h]
      exact ⟨rfl, hwf, fun hc => absurd hc h⟩
  | succ rem ih =>
    intro t b hwf
    -- the NE/NW/SE/SW first-acceptor chain on a divided node
    have hnode : ∀ (bd : Rect α) (bs : List (Bubble α)) (ne nw se sw : QuadTree α),
        RectNonneg bd → (∀ u ∈ bs, qtContains bd u) →
        ne.boundary = neRect bd → nw.boundary = nwRect bd →
        se.boundary = seRect bd → sw.boundary = swRect bd →
        ne.WF → nw.WF → se.WF → sw.WF →
        qtContains bd b →
        InsertSpec cap (rem + 1) (.node bd bs ne nw se sw) b := by
      intro bd bs ne nw se sw hbd hown hbne hbnw hbse hbsw wfne wfnw wfse wfsw h
      have specne := ih ne b wfne
      have specnw := ih nw b wfnw
      have specse := ih se b wfse
      have specsw := ih sw b wfsw
      rcases hne : QuadTree.insert cap rem ne b with ⟨ne2, bne⟩
      cases bne with
      | true =>
        have hcne : qtContains ne.boundary b := (insert_snd cap rem ne b).mp (by rw [hne])
        obtain ⟨sb, sw2, sp⟩ := specne
        rw [hne] at sb sw2 sp
        refine ⟨?_, ?_, ?_⟩ <;>
          simp only [InsertSpec, QuadTree.insert, if_pos h, hne]
        · rfl
        · exact ⟨hbd, hown, by rw [sb, hbne], hbnw, hbse, hbsw, sw2, wfnw, wfse, wfsw⟩
        · intro _
          simp only [QuadTree.allBubbles, QuadTree.boundary]
          have h1 : (QuadTree.allBubbles ne2 ++ (QuadTree.allBubbles nw ++
              (QuadTree.allBubbles se ++ QuadTree.allBubbles sw))).Perm
              (b :: (QuadTree.allBubbles ne ++ (QuadTree.allBubbles nw ++
                (QuadTree.allBubbles se ++ QuadTree.allBubbles sw)))) :=
            (sp hcne).append_right _
          exact perm_cons_append bs h1
      | false =>
        have hncne : ¬qtContains ne.boundary b := by
          intro hc
          have := (insert_snd cap rem ne b).mpr hc
          rw [hne] at this
          exact Bool.false_ne_true this
        have hne1 : ne2 = ne := by
          have := insert_of_not_contains cap rem ne b hncne
          rw [hne] at this
          exact (Prod.mk.injEq _ _ _ _).mp this |>.1
        rw [hne1] at hne
        rcases hnw : QuadTree.insert cap rem nw b with ⟨nw2, bnw⟩
        cases bnw with
        | true =>
          have hcnw : qtContains nw.boundary b := (insert_snd cap rem nw b).mp (by rw [hnw])
          obtain ⟨sb, sw2, sp⟩ := specnw
          rw [hnw] at sb sw2 sp
          refine ⟨?_, ?_, ?_⟩ <;>
            simp only [InsertSpec, QuadTree.insert, if_pos h, hne, hnw]
          · rfl
          · exact ⟨hbd, hown, hbne, by rw [sb, hbnw], hbse, hbsw, wfne, sw2, wfse, wfsw⟩
          · intro _
            simp only [QuadTree.allBubbles, QuadTree.boundary]
            have h1 : (QuadTree.allBubbles nw2 ++
                (QuadTree.allBubbles se ++ QuadTree.allBubbles sw)).Perm
                (b :: (QuadTree.allBubbles nw ++
                  (QuadTree.allBubbles se ++ QuadTree.allBubbles sw))) :=
              (sp hcnw).append_right _
            exact perm_cons_append bs (perm_cons_append (QuadTree.allBubbles ne) h1)
        | false =>
          have hncnw : ¬qtContains nw.boundary b := by
            intro hc
            have := (insert_snd cap rem nw b).mpr hc
            rw [hnw] at this
            exact Bool.false_ne_true this
          have hnw1 : nw2 = nw := by
            have := insert_of_not_contains cap rem nw b hncnw
            rw [hnw] at this
            exact (Prod.mk.injEq _ _ _ _).mp this |>.1
          rw [hnw1] at hnw
          rcases hse : QuadTree.insert cap rem se b with ⟨se2, bse⟩
          cases bse with
          | true =>
            have hcse : qtContains se.boundary b :=
              (insert_snd cap rem se b).mp (by rw [hse])
            obtain ⟨sb, sw2, sp⟩ := specse
            rw [hse] at sb sw2 sp
            refine ⟨?_, ?_, ?_⟩ <;>
              simp only [InsertSpec, QuadTree.insert, if_pos h, hne, hnw, hse]
            · rfl
            · exact ⟨hbd, hown, hbne, hbnw, by rw [sb, hbse], hbsw, wfne, wfnw, sw2, wfsw⟩
            · intro _
              simp only [QuadTree.allBubbles, QuadTree.boundary]
              have h1 : (QuadTree.allBubbles se2 ++ QuadTree.allBubbles sw).Perm
                  (b :: (QuadTree.allBubbles se ++ QuadTree.allBubbles sw)) :=
                (sp hcse).append_right _
              exact perm_cons_append bs (perm_cons_append (QuadTree.allBubbles ne)
                (perm_cons_append (QuadTree.allBubbles nw) h1))
          | false =>
            have hncse : ¬qtContains se.boundary b := by
              intro hc
              have := (insert_snd cap rem se b).mpr hc
              rw [hse] at this
              exact Bool.false_ne_true this
            have hse1 : se2 = se := by
              have := insert_of_not_contains cap rem se b hncse
              rw [hse] at this
              exact (Prod.mk.injEq _ _ _ _).mp this |>.1
            rw [hse1] at hse
            rcases hsw : QuadTree.insert cap rem sw b with ⟨sw2, bsw⟩
            cases bsw with
            | true =>
              have hcsw : qtContains sw.boundary b :=
                (insert_snd cap rem sw b).mp (by rw [hsw])
              obtain ⟨sb, sw3, sp⟩ := specsw
              rw [hsw] at sb sw3 sp
              refine ⟨?_, ?_, ?_⟩ <;>
                simp only [InsertSpec, QuadTree.insert, if_pos h, hne, hnw, hse, hsw]
              · rfl
              · exact ⟨hbd, hown, hbne, hbnw, hbse, by rw [sb, hbsw], wfne, wfnw, wfse, sw3⟩
              · intro _
                simp only [QuadTree.allBubbles, QuadTree.boundary]
                have h1 : (QuadTree.allBubbles sw2).Perm
                    (b :: QuadTree.allBubbles sw) := sp hcsw
                exact perm_cons_append bs (perm_cons_append (QuadTree.allBubbles ne)
                  (perm_cons_append (QuadTree.allBubbles nw)
                    (perm_cons_append (QuadTree.allBubbles se) h1)))
            | false =>
              have hsw1 : sw2 = sw := by
                have hncsw : ¬qtContains sw.boundary b := by
                  intro hc
                  have := (insert_snd cap rem sw b).mpr hc
                  rw [hsw] at this
                  exact Bool.false_ne_true this
                have := insert_of_not_contains cap rem sw b hncsw
                rw [hsw] at this
                exact (Prod.mk.injEq _ _ _ _).mp this |>.1
              rw [hsw1] at hsw
              refine ⟨?_, ?_, ?_⟩ <;>
                simp only [InsertSpec, QuadTree.insert, if_pos h, hne, hnw, hse, hsw]
              · rfl
              · refine ⟨hbd, fun u hu => ?_, hbne, hbnw, hbse, hbsw, wfne, wfnw, wfse, wfsw⟩
                rcases List.mem_append.mp hu with hu | hu
                · exact hown u hu
                · rw [List.mem_singleton.mp hu]; exact h
              · intro _
                simp only [QuadTree.allBubbles, QuadTree.boundary, List.append_assoc]
                exact List.perm_middle
    cases t with
    | node bd bs ne nw se sw =>
      obtain ⟨hbd, hown, hbne, hbnw, hbse, hbsw, wfne, wfnw, wfse, wfsw⟩ := hwf
      by_cases h : qtContains bd b
      · exact hnode bd bs ne nw se sw hbd hown hbne hbnw hbse hbsw wfne wfnw wfse wfsw h
      · rw [InsertSpec, insert_of_not_contains cap (rem + 1) _ b
          (by simpa only [QuadTree.boundary] using h)]
        exact ⟨rfl, ⟨hbd, hown, hbne, hbnw, hbse, hbsw, wfne, wfnw, wfse, wfsw⟩,
          fun hc => absurd (by simpa only [QuadTree.boundary] using hc) h⟩
    | leaf bd bs =>
      obtain ⟨hbd, hown⟩ := hwf
      by_cases h : qtContains bd b
      · by_cases hcap : bs.length < cap
        · refine ⟨?_, ?_, ?_⟩ <;>
            simp only [InsertSpec, QuadTree.insert, if_pos h, if_pos hcap]
          · rfl
          · exact ⟨hbd, fun u hu => by
              rcases List.mem_append.mp hu with hu | hu
              · exact hown u hu
              · rw [List.mem_singleton.mp hu]; exact h⟩
          · intro _
            simp [QuadTree.allBubbles]
        · -- full leaf: subdivide, then behave exactly like the divided node
          have heq : QuadTree.insert cap (rem + 1) (.leaf bd bs) b =
              QuadTree.insert cap (rem + 1) (.node bd []
                (.leaf (neRect bd) (distNE bd bs)) (.leaf (nwRect bd) (distNW bd bs))
                (.leaf (seRect bd) (distSE bd bs)) (.leaf (swRect bd) (distSW bd bs))) b := by
            simp only [QuadTree.insert]
            rw [if_pos h, if_neg hcap, if_pos h]
            simp only [List.nil_append]
          have hq := rectNonneg_quad hbd
          have hspec := hnode bd [] (.leaf (neRect bd) (distNE bd bs))
            (.leaf (nwRect bd) (distNW bd bs)) (.leaf (seRect bd) (distSE bd bs))
            (.leaf (swRect bd) (distSW bd bs)) hbd (by intro u hu; cases hu) rfl rfl rfl rfl
            ⟨hq.1, by
              intro u hu
              unfold distNE at hu
              exact of_decide_eq_true ((List.mem_filter.mp hu).2)⟩
            ⟨hq.2.1, by
              intro u hu
              unfold distNW at hu
              exact (of_decide_eq_true ((List.mem_filter.mp hu).2)).2⟩
            ⟨hq.2.2.1, by
              intro u hu
              unfold distSE at hu
              exact (of_decide_eq_true ((List.mem_filter.mp hu).2)).2.2⟩
            ⟨hq.2.2.2, by
              intro u hu
              unfold distSW at hu
              exact (of_decide_eq_true ((List.mem_filter.mp hu).2)).2.2.2⟩
            h
          obtain ⟨sb, swf, sp⟩ := hspec
          rw [← heq] at sb swf sp
          refine ⟨by rw [sb]; rfl, swf, fun _ => ?_⟩
          have hperm := sp (by simpa only [QuadTree.boundary] using h)
          refine hperm.trans ?_
          refine List.Perm.cons b ?_
          simpa only [QuadTree.allBubbles, List.nil_append] using
            dist_perm hbd bs hown
      · rw [InsertSpec, insert_of_not_contains cap (rem + 1) _ b
          (by simpa only [QuadTree.boundary] using h)]
        exact ⟨rfl, ⟨hbd, hown⟩, fun hc => absurd (by simpa only [QuadTree.boundary] using hc) h⟩

theorem insertAll_spec (cap rem : ℕ) :
    ∀ (bs : List (Bubble α)) (t : QuadTree α), t.WF →
      (∀ b ∈ bs, qtContains t.boundary b) →
      (insertAll cap rem t bs).boundary = t.boundary ∧
      (insertAll cap rem t bs).WF ∧
      (insertAll cap rem t bs).allBubbles.Perm (t.allBubbles ++ bs) := by
  intro bs
  induction bs with
  | nil =>
    intro t hwf _
    exact ⟨rfl, hwf, by simp [insertAll]⟩
  | cons b bs2 ih =>
    intro t hwf hctn
    obtain ⟨sb, swf, sp⟩ := insert_spec cap rem t b hwf
    have hc := hctn b (List.mem_cons_self b bs2)
    have step : insertAll cap rem t (b :: bs2) =
        insertAll cap rem (QuadTree.insert cap rem t b).1 bs2 := rfl
    have ih2 := ih (QuadTree.insert cap rem t b).1 swf fun v hv => by
      rw [sb]; exact hctn v (List.mem_cons_of_mem b hv)
    refine ⟨?_, ?_, ?_⟩
    · rw [step, ih2.1, sb]
    · rw [step]; exact ih2.2.1
    · rw [step]
      refine ih2.2.2.trans ?_
      refine ((sp hc).append_right bs2).trans ?_
      exact List.perm_middle.symm

/-- C3: for every set of circles inserted into a quadtree whose root rectangle
covers their bounding area (src variant, point-containment policy), `queryRange`
over the full root boundary returns every inserted entity exactly once — the
result is a permutation of the inserted list — for every capacity and max-depth
configuration. -/
theorem quadtree_completeness {α : Type} [LinearOrderedField α] (cap rem : ℕ)
    (R : Rect α) (bs : List (Bubble α)) (hR : RectNonneg R)
    (hcov : ∀ b ∈ bs, 0 < b.radius ∧ R.x ≤ b.x - b.radius ∧
      b.x + b.radius ≤ R.x + R.width ∧ R.y ≤ b.y - b.radius ∧
      b.y + b.radius ≤ R.y + R.height) :
    ((insertAll cap rem (QuadTree.leaf R []) bs).queryRange R).Perm bs := by
  have hctn : ∀ b ∈ bs, qtContains R b := by
    intro b hb
    obtain ⟨hr0, h1, h2, h3, h4⟩ := hcov b hb
    exact ⟨by linarith, by linarith, by linarith, by linarith⟩
  have hwf0 : (QuadTree.leaf R ([] : List (Bubble α))).WF :=
    ⟨hR, by intro u hu; cases hu⟩
  obtain ⟨hb, hwf, hperm⟩ := insertAll_spec cap rem bs (QuadTree.leaf R []) hwf0
    (by simpa only [QuadTree.boundary] using hctn)
  rw [queryRange_eq_filter _ hwf R (by rw [hb]; exact subRect_refl R)]
  have hfil : ∀ u ∈ (insertAll cap rem (QuadTree.leaf R []) bs).allBubbles,
      (fun u => decide (pointInRect u R)) u = true := by
    intro u hu
    have hmem := hperm.mem_iff.mp hu
    simp only [QuadTree.allBubbles, List.nil_append] at hmem
    exact decide_eq_true (hctn u hmem)
  rw [List.filter_eq_self.mpr hfil]
  refine hperm.trans ?_
  simp [QuadTree.allBubbles]

/-- The concrete bubbles of the C3 witness. -/
def c3bs : List (Bubble ℚ) :=
  [⟨0, 10, 10, 0, 0, 2, 1⟩, ⟨1, 40, 12, 0, 0, 3, 1⟩, ⟨2, 12, 40, 0, 0, 1, 1⟩]

/-- The root rectangle of the C3 witness. -/
def c3R : Rect ℚ := ⟨0, 0, 64, 64⟩

/-- Witness for C3 at capacity 1 and max depth 2, forcing subdivisions. -/
theorem quadtree_completeness_witness :
    RectNonneg c3R ∧
    (∀ b ∈ c3bs, 0 < b.radius ∧ c3R.x ≤ b.x - b.radius ∧
      b.x + b.radius ≤ c3R.x + c3R.width ∧ c3R.y ≤ b.y - b.radius ∧
      b.y + b.radius ≤ c3R.y + c3R.height) ∧
    ((insertAll 1 2 (QuadTree.leaf c3R []) c3bs).queryRange c3R).Perm c3bs := by
  have h1 : RectNonneg c3R := by norm_num [RectNonneg, c3R]
  have h2 : ∀ b ∈ c3bs, 0 < b.radius ∧ c3R.x ≤ b.x - b.radius ∧
      b.x + b.radius ≤ c3R.x + c3R.width ∧ c3R.y ≤ b.y - b.radius ∧
      b.y + b.radius ≤ c3R.y + c3R.height := by
    intro b hb
    fin_cases hb <;> norm_num [c3R]
  exact ⟨h1, h2, quadtree_completeness 1 2 c3R c3bs h1 h2⟩

/-- Modelled from the spec: containment policy (a), the entity's bounding circle
(centre ± radius) intersects the region rectangle — stated as the clamped distance
from the centre to the closed rectangle being at most the radius. -/
def specCircleIntersects (b : Bubble α) (r : Rect α) : Prop :=
  max (r.x - b.x) (max (b.x - (r.x + r.width)) 0) *
      max (r.x - b.x) (max (b.x - (r.x + r.width)) 0) +
    max (r.y - b.y) (max (b.y - (r.y + r.height)) 0) *
      max (r.y - b.y) (max (b.y - (r.y + r.height)) 0) ≤ b.radius * b.radius

instance (b : Bubble α) (r : Rect α) : Decidable (specCircleIntersects b r) :=
  inferInstanceAs (Decidable (_ ≤ _))

/-- Every bubble returned by `queryRange` passes the centre-point filter. -/
theorem queryRange_mem_pointInRect :
    ∀ (t : QuadTree α) (range : Rect α) (u : Bubble α),
      u ∈ t.queryRange range → pointInRect u range := by
  intro t
  induction t with
  | leaf bd bs =>
    intro range u hu
    simp only [QuadTree.queryRange] at hu
    split_ifs at hu with hI
    · exact of_decide_eq_true (List.mem_filter.mp hu).2
    · cases hu
  | node bd bs ne nw se sw ihne ihnw ihse ihsw =>
    intro range u hu
    simp only [QuadTree.queryRange] at hu
    split_ifs at hu with hI
    · rcases List.mem_append.mp hu with hu | hu
      · exact of_decide_eq_true (List.mem_filter.mp hu).2
      · rcases List.mem_append.mp hu with hu | hu
        · exact ihne range u hu
        · rcases List.mem_append.mp hu with hu | hu
          · exact ihnw range u hu
          · rcases List.mem_append.mp hu with hu | hu
            · exact ihse range u hu
            · exact ihsw range u hu
    · cases hu

/-- The bubble of the C4 counterexample: centred left of the region with its
circle overlapping it. -/
def c4b : Bubble ℚ := ⟨0, -5, 50, 0, 0, 10, 1⟩

/-- The region rectangle of the C4 counterexample. -/
def c4R : Rect ℚ := ⟨0, 0, 100, 100⟩

/-- C4 counterexample: in the src variant the containment test is NOT policy (a):
this bubble's bounding circle intersects the region, yet `contains` rejects it,
`insert` returns `false`, and the `queryRange` filter (`pointInRectangle`)
excludes it — so inclusion is not equivalent to circle-rectangle intersection. -/
theorem containment_policy_counterexample :
    specCircleIntersects c4b c4R ∧ ¬qtContains c4R c4b ∧ ¬pointInRect c4b c4R ∧
    (QuadTree.insert 100 10 (QuadTree.leaf c4R []) c4b).2 = false := by
  refine ⟨?_, ?_, ?_, ?_⟩
  · norm_num [specCircleIntersects, c4b, c4R, max_def]
  · norm_num [qtContains, c4b, c4R]
  · norm_num [pointInRect, c4b, c4R]
  · rw [insert_of_not_contains 100 10 _ c4b
      (by norm_num [qtContains, c4b, c4R, QuadTree.boundary])]

/-- C4 (amended): the src variant's region containment test includes an entity
in a region if and only if the entity's CENTRE lies in the half-open region
rectangle (policy (b), point containment), and this same centre-point test
governs both insertion (`insert` succeeds exactly when the centre is inside the
node boundary) and range queries (every returned entity passes the centre-point
filter). -/
theorem containment_policy_amended {α : Type} [LinearOrderedField α] (cap rem : ℕ)
    (t : QuadTree α) (b u : Bubble α) (R range : Rect α) :
    (qtContains R b ↔ (R.x ≤ b.x ∧ b.x < R.x + R.width ∧ R.y ≤ b.y ∧
      b.y < R.y + R.height)) ∧
    ((QuadTree.insert cap rem t b).2 = true ↔ qtContains t.boundary b) ∧
    (u ∈ t.queryRange range → pointInRect u range) ∧
    (pointInRect u range ↔ (range.x ≤ u.x ∧ u.x < range.x + range.width ∧
      range.y ≤ u.y ∧ u.y < range.y + range.height)) :=
  ⟨Iff.rfl, insert_snd cap rem t b, queryRange_mem_pointInRect t range u, Iff.rfl⟩

/-- The tree of the C4 amended witness. -/
def c4t : QuadTree ℚ := QuadTree.leaf ⟨0, 0, 10, 10⟩ [⟨1, 5, 5, 0, 0, 1, 1⟩]

/-- Witness for the amended C4 at a concrete tree and query. -/
theorem containment_policy_amended_witness :
    (⟨1, 5, 5, 0, 0, 1, 1⟩ : Bubble ℚ) ∈ c4t.queryRange ⟨0, 0, 10, 10⟩ ∧
    pointInRect (⟨1, 5, 5, 0, 0, 1, 1⟩ : Bubble ℚ) ⟨0, 0, 10, 10⟩ := by
  have hmem : (⟨1, 5, 5, 0, 0, 1, 1⟩ : Bubble ℚ) ∈ c4t.queryRange ⟨0, 0, 10, 10⟩ := by
    norm_num [c4t, QuadTree.queryRange, rectIntersects, pointInRect, List.filter]
  exact ⟨hmem,
    (containment_policy_amended 100 10 c4t ⟨1, 5, 5, 0, 0, 1, 1⟩ ⟨1, 5, 5, 0, 0, 1, 1⟩
      ⟨0, 0, 10, 10⟩ ⟨0, 0, 10, 10⟩).2.2.1 hmem⟩

/-! ### Physics integrator (`PhysicsManager` in `usePixiBubbleChart.ts`)

`PHYSICS_CONFIG` constants appear inline: damping `0.85 = 17/20`, desiredSpacing
`25`, attractionForce `0.002 = 1/500`, repulsionMultiplier `0.1 = 1/10`,
bounceMultiplier `-1`. -/

/-- The `PhysicsManager` constructor arguments. -/
structure PhysCfg (α : Type) where
  canvasWidth : α
  canvasHeight : α
  titleHeight : α

/-- The focal point abscissa `canvasWidth / 2`. -/
def centerX (cfg : PhysCfg α) : α := cfg.canvasWidth / 2

/-- The focal point ordinate `titleHeight + (canvasHeight - titleHeight) * 0.4`. -/
def centerY (cfg : PhysCfg α) : α :=
  cfg.titleHeight + (cfg.canvasHeight - cfg.titleHeight) * (2 / 5)

/-- `applyDamping`: multiply both velocity components by the damping factor. -/
def applyDamping (b : Bubble α) : Bubble α :=
  { b with vx := b.vx * (17 / 20), vy := b.vy * (17 / 20) }

/-- `updatePosition`: explicit Euler step. -/
def updatePosition (b : Bubble α) : Bubble α :=
  { b with x := b.x + b.vx, y := b.y + b.vy }

/-- The horizontal half of `handleWallCollisions`. -/
def handleWallX (cfg : PhysCfg α) (b : Bubble α) : Bubble α :=
  if b.x + b.radius > cfg.canvasWidth ∨ b.x - b.radius < 0 then
    { b with
        vx := b.vx * (-1),
        x := max b.radius (min (cfg.canvasWidth - b.radius) b.x) }
  else b

/-- The vertical half of `handleWallCollisions`: note the source's lower bound
compares `y - radius` against `minY = topBoundary + radius`. -/
def handleWallY (cfg : PhysCfg α) (b : Bubble α) : Bubble α :=
  if b.y + b.radius > cfg.canvasHeight ∨
      b.y - b.radius < cfg.titleHeight + b.radius then
    { b with
        vy := b.vy * (-1),
        y := max (cfg.titleHeight + b.radius) (min (cfg.canvasHeight - b.radius) b.y) }
  else b

/-- `handleWallCollisions`: horizontal check then vertical check. -/
def handleWallCollisions (cfg : PhysCfg α) (b : Bubble α) : Bubble α :=
  handleWallY cfg (handleWallX cfg b)

/-- `applyAttractionToCenter`: spring-like pull toward the focal point. -/
def applyAttractionToCenter (cfg : PhysCfg α) (b : Bubble α) : Bubble α :=
  { b with
      vx := b.vx + (centerX cfg - b.x) * (1 / 500),
      vy := b.vy + (centerY cfg - b.y) * (1 / 500) }

/-- The body of `updatePhysics`'s per-bubble loop: damping, Euler update, wall
handling, focal attraction. -/
def perBubbleUpdate (cfg : PhysCfg α) (b : Bubble α) : Bubble α :=
  applyAttractionToCenter cfg (handleWallCollisions cfg (updatePosition (applyDamping b)))

/-- `handleBubbleCollision`, with `sq` modelling `Math.sqrt` (instantiated with
`Real.sqrt`).  `Math.cos(Math.atan2(dy, dx))` and `Math.sin(Math.atan2(dy, dx))`
are `dx / distance` and `dy / distance` for positive `distance`. -/
def handleBubbleCollision (sq : α → α) (a b : Bubble α) : Bubble α × Bubble α :=
  let dx := b.x - a.x
  let dy := b.y - a.y
  let distance := sq (dx * dx + dy * dy)
  let minDistance := a.radius + b.radius + 25
  if distance < minDistance ∧ 0 < distance then
    let overlap := minDistance - distance
    let repulsionForce := overlap * (1 / 10)
    let repulsionVx := dx / distance * repulsionForce
    let repulsionVy := dy / distance * repulsionForce
    ({ a with
        vx := a.vx - repulsionVx,
        vy := a.vy - repulsionVy },
      { b with
        vx := b.vx + repulsionVx,
        vy := b.vy + repulsionVy })
  else (a, b)

/-! Wall-handling lemmas. -/

theorem handleWallX_preserves (cfg : PhysCfg α) (b : Bubble α) :
    (handleWallX cfg b).idx = b.idx ∧ (handleWallX cfg b).y = b.y ∧
    (handleWallX cfg b).vy = b.vy ∧ (handleWallX cfg b).radius = b.radius ∧
    (handleWallX cfg b).alpha = b.alpha := by
  unfold handleWallX
  split_ifs <;> exact ⟨rfl, rfl, rfl, rfl, rfl⟩

theorem handleWallY_keeps (cfg : PhysCfg α) (b : Bubble α) :
    (handleWallY cfg b).idx = b.idx ∧ (handleWallY cfg b).x = b.x ∧
    (handleWallY cfg b).vx = b.vx ∧ (handleWallY cfg b).radius = b.radius ∧
    (handleWallY cfg b).alpha = b.alpha := by
  unfold handleWallY
  split_ifs <;> exact ⟨rfl, rfl, rfl, rfl, rfl⟩

theorem handleWallX_inside {cfg : PhysCfg α} {b : Bubble α} (h1 : b.radius ≤ b.x)
    (h2 : b.x ≤ cfg.canvasWidth - b.radius) : handleWallX cfg b = b := by
  unfold handleWallX
  rw [if_neg (show ¬(b.x + b.radius > cfg.canvasWidth ∨ b.x - b.radius < 0) by
    push_neg
    exact ⟨by linarith, by linarith⟩)]

theorem handleWallY_vy_of_low {cfg : PhysCfg α} {c : Bubble α}
    (h : c.y < cfg.titleHeight + 2 * c.radius) :
    (handleWallY cfg c).vy = -c.vy ∧
    (cfg.titleHeight + c.radius ≤ c.y → c.y ≤ cfg.canvasHeight - c.radius →
      (handleWallY cfg c).y = c.y) := by
  unfold handleWallY
  rw [if_pos (Or.inr (by linarith))]
  constructor
  · show c.vy * (-1) = -c.vy
    ring
  · intro h1 h2
    show max (cfg.titleHeight + c.radius) (min (cfg.canvasHeight - c.radius) c.y) = c.y
    rw [min_eq_right h2, max_eq_right h1]

theorem handleWallX_bounds (cfg : PhysCfg α) (c : Bubble α) (hr : 0 ≤ c.radius)
    (hw : 2 * c.radius ≤ cfg.canvasWidth) :
    (handleWallX cfg c).radius ≤ (handleWallX cfg c).x ∧
    (handleWallX cfg c).x ≤ cfg.canvasWidth - (handleWallX cfg c).radius := by
  unfold handleWallX
  split_ifs with h
  · constructor
    · exact le_max_left _ _
    · apply max_le
      · linarith
      · exact min_le_left _ _
  · push_neg at h
    exact ⟨by linarith [h.2], by linarith [h.1]⟩

theorem handleWallY_bounds (cfg : PhysCfg α) (c : Bubble α) (hr : 0 ≤ c.radius)
    (hh : 2 * c.radius ≤ cfg.canvasHeight - cfg.titleHeight) :
    cfg.titleHeight + (handleWallY cfg c).radius ≤ (handleWallY cfg c).y ∧
    (handleWallY cfg c).y ≤ cfg.canvasHeight - (handleWallY cfg c).radius := by
  unfold handleWallY
  split_ifs with h
  · constructor
    · exact le_max_left _ _
    · apply max_le
      · linarith
      · exact min_le_left _ _
  · push_neg at h
    exact ⟨by linarith [h.2], by linarith [h.1]⟩

/-- C10: in the vertical boundary handling, the lower bounce condition compares
`y - radius` against `minY = titleHeight + radius` rather than `titleHeight`, so
`vy` is inverted whenever `y < titleHeight + 2·radius`; in particular an entity
whose circle is entirely inside the play area but whose centre is less than one
radius above the legal minimum still has its vertical velocity reversed (its
position unchanged), while the horizontal check has no such extra offset (no
horizontal bounce when `radius ≤ x ≤ canvasWidth - radius`). -/
theorem bottom_bounce_offset {α : Type} [LinearOrderedField α] (cfg : PhysCfg α)
    (b : Bubble α) :
    (b.y < cfg.titleHeight + 2 * b.radius →
      (handleWallCollisions cfg b).vy = -b.vy) ∧
    (b.radius ≤ b.x → b.x ≤ cfg.canvasWidth - b.radius →
      (handleWallCollisions cfg b).vx = b.vx) ∧
    (cfg.titleHeight + b.radius ≤ b.y → b.y ≤ cfg.canvasHeight - b.radius →
      b.y < cfg.titleHeight + 2 * b.radius →
      (handleWallCollisions cfg b).y = b.y ∧
      (handleWallCollisions cfg b).vy = -b.vy) := by
  obtain ⟨pXi, pXy, pXvy, pXr, pXa⟩ := handleWallX_preserves cfg b
  refine ⟨?_, ?_, ?_⟩
  · intro hy
    have h := (@handleWallY_vy_of_low α _ cfg (handleWallX cfg b)
      (by rw [pXy, pXr]; exact hy)).1
    unfold handleWallCollisions
    rw [h, pXvy]
  · intro h1 h2
    unfold handleWallCollisions
    rw [handleWallX_inside h1 h2]
    exact (handleWallY_keeps cfg b).2.2.1
  · intro h1 h2 hy
    have hc := @handleWallY_vy_of_low α _ cfg (handleWallX cfg b)
      (by rw [pXy, pXr]; exact hy)
    unfold handleWallCollisions
    constructor
    · rw [hc.2 (by rw [pXy, pXr]; exact h1) (by rw [pXy, pXr]; exact h2), pXy]
    · rw [hc.1, pXvy]

/-- The configuration of the C10 witness. -/
def c10cfg : PhysCfg ℚ := ⟨800, 450, 60⟩

/-- The bubble of the C10 witness: fully inside the play area, centre less than
one radius above the legal minimum. -/
def c10b : Bubble ℚ := ⟨0, 400, 100, 3, 5, 30, 1⟩

/-- Witness for C10: the vertical velocity is reversed and the position kept even
though the circle is entirely inside; the horizontal velocity is untouched. -/
theorem bottom_bounce_offset_witness :
    c10b.y < c10cfg.titleHeight + 2 * c10b.radius ∧
    c10b.radius ≤ c10b.x ∧ c10b.x ≤ c10cfg.canvasWidth - c10b.radius ∧
    c10cfg.titleHeight + c10b.radius ≤ c10b.y ∧
    c10b.y ≤ c10cfg.canvasHeight - c10b.radius ∧
    (handleWallCollisions c10cfg c10b).vy = -c10b.vy ∧
    (handleWallCollisions c10cfg c10b).vx = c10b.vx ∧
    (handleWallCollisions c10cfg c10b).y = c10b.y := by
  have h1 : c10b.y < c10cfg.titleHeight + 2 * c10b.radius := by norm_num [c10b, c10cfg]
  have h2 : c10b.radius ≤ c10b.x := by norm_num [c10b]
  have h3 : c10b.x ≤ c10cfg.canvasWidth - c10b.radius := by norm_num [c10b, c10cfg]
  have h4 : c10cfg.titleHeight + c10b.radius ≤ c10b.y := by norm_num [c10b, c10cfg]
  have h5 : c10b.y ≤ c10cfg.canvasHeight - c10b.radius := by norm_num [c10b, c10cfg]
  have hthm := bottom_bounce_offset c10cfg c10b
  exact ⟨h1, h2, h3, h4, h5, hthm.1 h1, hthm.2.1 h2 h3, (hthm.2.2 h4 h5 h1).1⟩

/-- C8: for a pair of entities at identical coordinates the zero-distance guard
(`distance > 0`) fails, so `handleBubbleCollision` applies no repulsion — both
bubbles are returned unchanged and no division by zero or undefined angle is
ever evaluated. -/
theorem zero_distance_guard (a b : Bubble ℝ) (hx : a.x = b.x) (hy : a.y = b.y) :
    handleBubbleCollision Real.sqrt a b = (a, b) := by
  simp only [handleBubbleCollision, hx, hy, sub_self, mul_zero, zero_mul, add_zero,
    Real.sqrt_zero]
  rw [if_neg fun hc => lt_irrefl (0 : ℝ) hc.2]

/-- The first bubble of the C8 witness. -/
def c8a : Bubble ℝ := ⟨0, 5, 7, 1, 2, 3, 1⟩

/-- The second bubble of the C8 witness, at the same coordinates. -/
def c8b : Bubble ℝ := ⟨1, 5, 7, -1, 0, 4, 1⟩

/-- Witness for C8 at two concrete coincident bubbles. -/
theorem zero_distance_guard_witness :
    c8a.x = c8b.x ∧ c8a.y = c8b.y ∧
    handleBubbleCollision Real.sqrt c8a c8b = (c8a, c8b) :=
  ⟨rfl, rfl, zero_distance_guard c8a c8b rfl rfl⟩

/-! The collision pass `processCollisionsWithQuadTree` of the src variant. -/

/-- The `pairKey` string of the src variant, modelled as the tuple of its four
numbers: `"${min(ax,bx)},${min(ay,by)}-${max(ax,bx)},${max(ay,by)}"`.  Note it is
built from the pair's COORDINATES, not their identities. -/
def srcPairKey (a b : Bubble α) : α × α × α × α :=
  (min a.x b.x, min a.y b.y, max a.x b.x, max a.y b.y)

/-- State threaded through the collision pass: the live bubble array, the
`processedPairs` set (as a list of keys) and, for specification purposes, the
trace of pairs passed to `handleBubbleCollision`, in order. -/
structure PassState (α : Type) where
  cur : List (Bubble α)
  processedPairs : List (α × α × α × α)
  trace : List (Bubble α × Bubble α)

/-- Fetch the live object for a queried bubble (JS reference semantics:
`handleBubbleCollision` receives the live objects, whose velocities earlier pairs
of the same pass may have updated; object identity is the `idx` field). -/
def fetchCur (cur : List (Bubble α)) (b : Bubble α) : Bubble α :=
  (cur.find? fun u => u.idx == b.idx).getD b

/-- Apply `handleBubbleCollision` to one pair and record its key. -/
def applyPairCollision (sq : α → α) (st : PassState α) (b n : Bubble α) : PassState α :=
  let r := handleBubbleCollision sq (fetchCur st.cur b) (fetchCur st.cur n)
  { cur := st.cur.map fun u =>
      if u.idx = b.idx then r.1 else if u.idx = n.idx then r.2 else u,
    processedPairs := st.processedPairs ++ [srcPairKey b n],
    trace := st.trace ++ [(b, n)] }

/-- The `searchArea` rectangle around a bubble (`searchRadius = radius * 3`). -/
def searchArea (b : Bubble α) : Rect α :=
  ⟨b.x - b.radius * 3, b.y - b.radius * 3, b.radius * 3 * 2, b.radius * 3 * 2⟩

/-- The inner loop over `nearbyBubbles`: skip the bubble itself (reference
inequality, modelled by `idx`), skip already-processed keys, otherwise collide
and record. -/
def innerLoop (sq : α → α) (b : Bubble α) : PassState α → List (Bubble α) → PassState α
  | st, [] => st
  | st, n :: ns =>
    innerLoop sq b
      (if n.idx ≠ b.idx ∧ srcPairKey b n ∉ st.processedPairs then
        applyPairCollision sq st b n
      else st) ns

/-- The outer loop over the visible bubbles, querying the quadtree for each. -/
def outerLoop (sq : α → α) (qt : QuadTree α) : PassState α → List (Bubble α) → PassState α
  | st, [] => st
  | st, b :: bs => outerLoop sq qt (innerLoop sq b st (qt.queryRange (searchArea b))) bs

/-- `processCollisionsWithQuadTree`: clear and rebuild the quadtree (capacity 100,
max depth 10, boundary below the title region) from the visible bubbles, then run
the deduplicated pair loop. -/
def processCollisions (sq : α → α) (cfg : PhysCfg α) (bubbles : List (Bubble α)) :
    PassState α :=
  outerLoop sq
    (insertAll 100 10
      (QuadTree.leaf ⟨0, cfg.titleHeight, cfg.canvasWidth,
        cfg.canvasHeight - cfg.titleHeight⟩ [])
      (bubbles.filter fun u => decide (1 ≤ u.alpha)))
    ⟨bubbles, [], []⟩
    (bubbles.filter fun u => decide (1 ≤ u.alpha))

/-- `PhysicsManager.updatePhysics`: per-bubble step on every visible bubble (the
in-place mutation of the filtered array is a map with an `alpha` guard), then the
collision pass. -/
def updatePhysics (sq : α → α) (cfg : PhysCfg α) (bubbles : List (Bubble α)) :
    List (Bubble α) :=
  (processCollisions sq cfg
    (bubbles.map fun b => if 1 ≤ b.alpha then perBubbleUpdate cfg b else b)).cur

theorem srcPairKey_comm (a b : Bubble α) : srcPairKey a b = srcPairKey b a := by
  unfold srcPairKey
  rw [min_comm a.x b.x, min_comm a.y b.y, max_comm a.x b.x, max_comm a.y b.y]

/-- Invariant of the collision pass: the recorded trace has pairwise-distinct
keys, all of them members of `processedPairs`. -/
def PassInv (st : PassState α) : Prop :=
  (st.trace.map fun p => srcPairKey p.1 p.2).Nodup ∧
  ∀ p ∈ st.trace, srcPairKey p.1 p.2 ∈ st.processedPairs

theorem applyPairCollision_inv (sq : α → α) {st : PassState α} {b n : Bubble α}
    (hnot : srcPairKey b n ∉ st.processedPairs) (hinv : PassInv st) :
    PassInv (applyPairCollision sq st b n) := by
  obtain ⟨h1, h2⟩ := hinv
  constructor
  · simp only [applyPairCollision, List.map_append, List.map_cons, List.map_nil]
    rw [List.nodup_append]
    refine ⟨h1, List.nodup_singleton _, ?_⟩
    intro k hk hk2
    rw [List.mem_singleton.mp hk2] at hk
    obtain ⟨p, hp, hpk⟩ := List.mem_map.mp hk
    exact hnot (hpk ▸ h2 p hp)
  · intro p hp
    simp only [applyPairCollision] at hp ⊢
    rcases List.mem_append.mp hp with hp | hp
    · exact List.mem_append_left _ (h2 p hp)
    · rw [List.mem_singleton.mp hp]
      exact List.mem_append_right _ (List.mem_singleton_self _)

theorem innerLoop_inv (sq : α → α) (b : Bubble α) :
    ∀ (ns : List (Bubble α)) (st : PassState α), PassInv st →
      PassInv (innerLoop sq b st ns) := by
  intro ns
  induction ns with
  | nil => intro st hinv; exact hinv
  | cons n ns ih =>
    intro st hinv
    simp only [innerLoop]
    by_cases hcond : n.idx ≠ b.idx ∧ srcPairKey b n ∉ st.processedPairs
    · rw [if_pos hcond]
      exact ih _ (applyPairCollision_inv sq hcond.2 hinv)
    · rw [if_neg hcond]
      exact ih _ hinv

theorem outerLoop_inv (sq : α → α) (qt : QuadTree α) :
    ∀ (bs : List (Bubble α)) (st : PassState α), PassInv st →
      PassInv (outerLoop sq qt st bs) := by
  intro bs
  induction bs with
  | nil => intro st hinv; exact hinv
  | cons b bs ih =>
    intro st hinv
    simp only [outerLoop]
    exact ih _ (innerLoop_inv sq b _ st hinv)

/-- C5 (amended): during one collision pass of the src variant, the pairwise
repulsion is applied at most once to each unordered pair of entities.  The
deduplication key is independent of query order (it is symmetric in the pair),
but it is built from the pair's coordinates, not from the two identities: no two
invocations in the trace concern the same unordered pair. -/
theorem pair_dedup_amended (cfg : PhysCfg ℝ) (bubbles : List (Bubble ℝ)) :
    ((processCollisions Real.sqrt cfg bubbles).trace).Pairwise
      fun p q => ¬((p.1 = q.1 ∧ p.2 = q.2) ∨ (p.1 = q.2 ∧ p.2 = q.1)) := by
  have hinv : PassInv (processCollisions Real.sqrt cfg bubbles) := by
    unfold processCollisions
    refine outerLoop_inv _ _ _ _ ?_
    constructor
    · simp
    · intro p hp
      cases hp
  have h2 := List.pairwise_map.mp hinv.1
  exact h2.imp fun hk hsame => by
    rcases hsame with ⟨e1, e2⟩ | ⟨e1, e2⟩
    · exact hk (by rw [e1, e2])
    · exact hk (by rw [e1, e2, srcPairKey_comm])

/-- Bubble A of the C5 counterexample. -/
def c5A : Bubble ℚ := ⟨0, 0, 0, 0, 0, 5, 1⟩

/-- Bubble B of the C5 counterexample. -/
def c5B : Bubble ℚ := ⟨1, 10, 10, 0, 0, 5, 1⟩

/-- Bubble C of the C5 counterexample. -/
def c5C : Bubble ℚ := ⟨2, 0, 10, 0, 0, 5, 1⟩

/-- Bubble D of the C5 counterexample. -/
def c5D : Bubble ℚ := ⟨3, 10, 0, 0, 0, 5, 1⟩

/-- C5 counterexample: the src variant's pair key is NOT built by sorting the two
identities — two unordered pairs with four pairwise-distinct identities share the
same key (so a key collision can suppress a distinct pair, which an
identity-sorted key could never do). -/
theorem pair_key_counterexample :
    srcPairKey c5A c5B = srcPairKey c5C c5D ∧
    c5A.idx ≠ c5C.idx ∧ c5A.idx ≠ c5D.idx ∧ c5B.idx ≠ c5C.idx ∧ c5B.idx ≠ c5D.idx := by
  refine ⟨?_, ?_, ?_, ?_, ?_⟩
  · norm_num [srcPairKey, c5A, c5B, c5C, c5D, min_def, max_def]
  · norm_num [c5A, c5C]
  · norm_num [c5A, c5D]
  · norm_num [c5B, c5C]
  · norm_num [c5B, c5D]

/-! The size mapper `radiusFromTotal`, in both variants. -/

/-- src variant: `radiusFromTotal = Math.max(30, Math.sqrt(total) * 8)`.
`Math.sqrt` is passed in as `sq`. -/
def radiusFromTotal (sq : α → α) (total : α) : α :=
  max 30 (sq total * 8)

/-- `Array.prototype.findIndex`, as an `Option`-valued index. -/
def findIdxOpt (p : ℚ → Bool) : List ℚ → Option ℕ
  | [] => none
  | x :: xs => if p x then some 0 else (findIdxOpt p xs).map (· + 1)

/-- part_000 variant: `getResponsiveValue` — first breakpoint with
`width < bp` selects the parallel value, otherwise the last value. -/
def getResponsiveValue (w : ℚ) (bps vals : List ℚ) : ℚ :=
  match findIdxOpt (fun bp => decide (w < bp)) bps with
  | none => vals.getLast?.getD 0
  | some i => vals.getD i 0

/-- `RESPONSIVE_CONFIG.scale.breakpoints` of the part_000 variant. -/
def scaleBreakpoints : List ℚ := [480, 640, 768, 1024, 1280, 1600]

/-- `RESPONSIVE_CONFIG.scale.values` of the part_000 variant. -/
def scaleValues : List ℚ := [13/10, 7/5, 8/5, 17/10, 9/5, 19/10, 2]

/-- part_000 variant: `getResponsiveScaleFactor`. -/
def getResponsiveScaleFactor (w : ℚ) : ℚ :=
  getResponsiveValue w scaleBreakpoints scaleValues

/-- part_000 variant:
`radiusFromTotal = Math.max(15 * scaleFactor, Math.sqrt(total) * 6 * scaleFactor)`. -/
def radiusFromTotalResp (sq : ℝ → ℝ) (total : ℝ) (w : ℚ) : ℝ :=
  max (15 * ((getResponsiveScaleFactor w : ℚ) : ℝ))
    (sq total * 6 * ((getResponsiveScaleFactor w : ℚ) : ℝ))

theorem scale_factor_lb (w : ℚ) : 13 / 10 ≤ getResponsiveScaleFactor w := by
  simp only [getResponsiveScaleFactor, getResponsiveValue, scaleBreakpoints, scaleValues,
    findIdxOpt]
  split_ifs <;> norm_num

/-- C7: for a fixed viewport width the size mapper is monotone in the
magnitude, and the radius is never below the configured floor (30 in the src
variant; `15 * scaleFactor` in the part_000 variant). -/
theorem radius_monotone (w : ℚ) (m1 m2 : ℝ) (h : m2 < m1) :
    (radiusFromTotal Real.sqrt m2 ≤ radiusFromTotal Real.sqrt m1 ∧
      30 ≤ radiusFromTotal Real.sqrt m1) ∧
    (radiusFromTotalResp Real.sqrt m2 w ≤ radiusFromTotalResp Real.sqrt m1 w ∧
      15 * ((getResponsiveScaleFactor w : ℚ) : ℝ) ≤ radiusFromTotalResp Real.sqrt m1 w) := by
  have hsq : Real.sqrt m2 ≤ Real.sqrt m1 := Real.sqrt_le_sqrt h.le
  have hs0 : (0 : ℝ) ≤ ((getResponsiveScaleFactor w : ℚ) : ℝ) := by
    have hq : (0 : ℚ) ≤ getResponsiveScaleFactor w :=
      le_trans (by norm_num) (scale_factor_lb w)
    exact Rat.cast_nonneg.mpr hq
  refine ⟨⟨?_, le_max_left _ _⟩, ⟨?_, le_max_left _ _⟩⟩
  · exact max_le_max le_rfl (mul_le_mul_of_nonneg_right hsq (by norm_num))
  · exact max_le_max le_rfl
      (mul_le_mul_of_nonneg_right (mul_le_mul_of_nonneg_right hsq (by norm_num)) hs0)

/-- Witness for C7 at viewport width 800, magnitudes 4 > 1. -/
theorem radius_monotone_witness :
    (1 : ℝ) < 4 ∧
    ((radiusFromTotal Real.sqrt 1 ≤ radiusFromTotal Real.sqrt 4 ∧
        30 ≤ radiusFromTotal Real.sqrt 4) ∧
      (radiusFromTotalResp Real.sqrt 1 800 ≤ radiusFromTotalResp Real.sqrt 4 800 ∧
        15 * ((getResponsiveScaleFactor 800 : ℚ) : ℝ) ≤ radiusFromTotalResp Real.sqrt 4 800)) :=
  ⟨by norm_num, radius_monotone 800 4 1 (by norm_num)⟩

/-! Machinery for the containment invariant (C2): membership bounds for the
quadtree and the collision pass, and preservation of position-independent
fields through the physics steps. -/

theorem distNE_subset (r : Rect α) (bs : List (Bubble α)) :
    ∀ u ∈ distNE r bs, u ∈ bs := fun _ hu => (List.mem_filter.mp hu).1

theorem distNW_subset (r : Rect α) (bs : List (Bubble α)) :
    ∀ u ∈ distNW r bs, u ∈ bs := fun _ hu => (List.mem_filter.mp hu).1

theorem distSE_subset (r : Rect α) (bs : List (Bubble α)) :
    ∀ u ∈ distSE r bs, u ∈ bs := fun _ hu => (List.mem_filter.mp hu).1

theorem distSW_subset (r : Rect α) (bs : List (Bubble α)) :
    ∀ u ∈ distSW r bs, u ∈ bs := fun _ hu => (List.mem_filter.mp hu).1

theorem insert_allBubbles_subset (cap : ℕ) :
    ∀ (rem : ℕ) (t : QuadTree α) (b u : Bubble α),
      u ∈ ((QuadTree.insert cap rem t b).1).allBubbles → u ∈ t.allBubbles ∨ u = b := by
  intro rem
  induction rem with
  | zero =>
    intro t b u hu
    cases t with
    | leaf bd bs =>
      simp only [QuadTree.insert] at hu
      split_ifs at hu
      · simp only [QuadTree.allBubbles, List.mem_append, List.mem_singleton] at hu ⊢
        exact hu
      · exact Or.inl hu
    | node bd bs ne nw se sw =>
      simp only [QuadTree.insert] at hu
      split_ifs at hu
      · simp only [QuadTree.allBubbles, List.mem_append, List.mem_singleton] at hu ⊢
        tauto
      · exact Or.inl hu
  | succ rem ih =>
    intro t b u hu
    cases t with
    | leaf bd bs =>
      simp only [QuadTree.insert] at hu
      split_ifs at hu
      · simp only [QuadTree.allBubbles, List.mem_append, List.mem_singleton] at hu ⊢
        exact hu
      · split at hu
        · rename_i ne2 hne
          simp only [QuadTree.allBubbles, List.nil_append, List.mem_append] at hu
          rcases hu with h | h | h | h
          · rcases ih (QuadTree.leaf (neRect bd) (distNE bd bs)) b u
                (by rw [hne]; exact h) with h' | h'
            · exact Or.inl (distNE_subset bd bs u h')
            · exact Or.inr h'
          · exact Or.inl (distNW_subset bd bs u h)
          · exact Or.inl (distSE_subset bd bs u h)
          · exact Or.inl (distSW_subset bd bs u h)
        · rename_i ne2 hne
          split at hu
          · rename_i nw2 hnw
            simp only [QuadTree.allBubbles, List.nil_append, List.mem_append] at hu
            rcases hu with h | h | h | h
            · rcases ih (QuadTree.leaf (neRect bd) (distNE bd bs)) b u
                  (by rw [hne]; exact h) with h' | h'
              · exact Or.inl (distNE_subset bd bs u h')
              · exact Or.inr h'
            · rcases ih (QuadTree.leaf (nwRect bd) (distNW bd bs)) b u
                  (by rw [hnw]; exact h) with h' | h'
              · exact Or.inl (distNW_subset bd bs u h')
              · exact Or.inr h'
            · exact Or.inl (distSE_subset bd bs u h)
            · exact Or.inl (distSW_subset bd bs u h)
          · rename_i nw2 hnw
            split at hu
            · rename_i se2 hse
              simp only [QuadTree.allBubbles, List.nil_append, List.mem_append] at hu
              rcases hu with h | h | h | h
              · rcases ih (QuadTree.leaf (neRect bd) (distNE bd bs)) b u
                    (by rw [hne]; exact h) with h' | h'
                · exact Or.inl (distNE_subset bd bs u h')
                · exact Or.inr h'
              · rcases ih (QuadTree.leaf (nwRect bd) (distNW bd bs)) b u
                    (by rw [hnw]; exact h) with h' | h'
                · exact Or.inl (distNW_subset bd bs u h')
                · exact Or.inr h'
              · rcases ih (QuadTree.leaf (seRect bd) (distSE bd bs)) b u
                    (by rw [hse]; exact h) with h' | h'
                · exact Or.inl (distSE_subset bd bs u h')
                · exact Or.inr h'
              · exact Or.inl (distSW_subset bd bs u h)
            · rename_i se2 hse
              split at hu
              · rename_i sw2 hsw
                simp only [QuadTree.allBubbles, List.nil_append, List.mem_append] at hu
                rcases hu with h | h | h | h
                · rcases ih (QuadTree.leaf (neRect bd) (distNE bd bs)) b u
                      (by rw [hne]; exact h) with h' | h'
                  · exact Or.inl (distNE_subset bd bs u h')
                  · exact Or.inr h'
                · rcases ih (QuadTree.leaf (nwRect bd) (distNW bd bs)) b u
                      (by rw [hnw]; exact h) with h' | h'
                  · exact Or.inl (distNW_subset bd bs u h')
                  · exact Or.inr h'
                · rcases ih (QuadTree.leaf (seRect bd) (distSE bd bs)) b u
                      (by rw [hse]; exact h) with h' | h'
                  · exact Or.inl (distSE_subset bd bs u h')
                  · exact Or.inr h'
                · rcases ih (QuadTree.leaf (swRect bd) (distSW bd bs)) b u
                      (by rw [hsw]; exact h) with h' | h'
                  · exact Or.inl (distSW_subset bd bs u h')
                  · exact Or.inr h'
              · rename_i sw2 hsw
                simp only [QuadTree.allBubbles, List.mem_append, List.mem_cons,
                  List.not_mem_nil, or_false] at hu
                rcases hu with h | h | h | h | h
                · exact Or.inr h
                · rcases ih (QuadTree.leaf (neRect bd) (distNE bd bs)) b u
                      (by rw [hne]; exact h) with h' | h'
                  · exact Or.inl (distNE_subset bd bs u h')
                  · exact Or.inr h'
                · rcases ih (QuadTree.leaf (nwRect bd) (distNW bd bs)) b u
                      (by rw [hnw]; exact h) with h' | h'
                  · exact Or.inl (distNW_subset bd bs u h')
                  · exact Or.inr h'
                · rcases ih (QuadTree.leaf (seRect bd) (distSE bd bs)) b u
                      (by rw [hse]; exact h) with h' | h'
                  · exact Or.inl (distSE_subset bd bs u h')
                  · exact Or.inr h'
                · rcases ih (QuadTree.leaf (swRect bd) (distSW bd bs)) b u
                      (by rw [hsw]; exact h) with h' | h'
                  · exact Or.inl (distSW_subset bd bs u h')
                  · exact Or.inr h'
      · exact Or.inl hu
    | node bd bs ne nw se sw =>
      simp only [QuadTree.insert] at hu
      split_ifs at hu
      · split at hu
        · rename_i ne2 hne
          simp only [QuadTree.allBubbles, List.mem_append] at hu ⊢
          rcases hu with h | h | h | h | h
          · exact Or.inl (Or.inl h)
          · rcases ih ne b u (by rw [hne]; exact h) with h' | h'
            · exact Or.inl (Or.inr (Or.inl h'))
            · exact Or.inr h'
          · exact Or.inl (Or.inr (Or.inr (Or.inl h)))
          · exact Or.inl (Or.inr (Or.inr (Or.inr (Or.inl h))))
          · exact Or.inl (Or.inr (Or.inr (Or.inr (Or.inr h))))
        · rename_i ne2 hne
          split at hu
          · rename_i nw2 hnw
            simp only [QuadTree.allBubbles, List.mem_append] at hu ⊢
            rcases hu with h | h | h | h | h
            · exact Or.inl (Or.inl h)
            · rcases ih ne b u (by rw [hne]; exact h) with h' | h'
              · exact Or.inl (Or.inr (Or.inl h'))
              · exact Or.inr h'
            · rcases ih nw b u (by rw [hnw]; exact h) with h' | h'
              · exact Or.inl (Or.inr (Or.inr (Or.inl h')))
              · exact Or.inr h'
            · exact Or.inl (Or.inr (Or.inr (Or.inr (Or.inl h))))
            · exact Or.inl (Or.inr (Or.inr (Or.inr (Or.inr h))))
          · rename_i nw2 hnw
            split at hu
            · rename_i se2 hse
              simp only [QuadTree.allBubbles, List.mem_append] at hu ⊢
              rcases hu with h | h | h | h | h
              · exact Or.inl (Or.inl h)
              · rcases ih ne b u (by rw [hne]; exact h) with h' | h'
                · exact Or.inl (Or.inr (Or.inl h'))
                · exact Or.inr h'
              · rcases ih nw b u (by rw [hnw]; exact h) with h' | h'
                · exact Or.inl (Or.inr (Or.inr (Or.inl h')))
                · exact Or.inr h'
              · rcases ih se b u (by rw [hse]; exact h) with h' | h'
                · exact Or.inl (Or.inr (Or.inr (Or.inr (Or.inl h'))))
                · exact Or.inr h'
              · exact Or.inl (Or.inr (Or.inr (Or.inr (Or.inr h))))
            · rename_i se2 hse
              split at hu
              · rename_i sw2 hsw
                simp only [QuadTree.allBubbles, List.mem_append] at hu ⊢
                rcases hu with h | h | h | h | h
                · exact Or.inl (Or.inl h)
                · rcases ih ne b u (by rw [hne]; exact h) with h' | h'
                  · exact Or.inl (Or.inr (Or.inl h'))
                  · exact Or.inr h'
                · rcases ih nw b u (by rw [hnw]; exact h) with h' | h'
                  · exact Or.inl (Or.inr (Or.inr (Or.inl h')))
                  · exact Or.inr h'
                · rcases ih se b u (by rw [hse]; exact h) with h' | h'
                  · exact Or.inl (Or.inr (Or.inr (Or.inr (Or.inl h'))))
                  · exact Or.inr h'
                · rcases ih sw b u (by rw [hsw]; exact h) with h' | h'
                  · exact Or.inl (Or.inr (Or.inr (Or.inr (Or.inr h'))))
                  · exact Or.inr h'
              · rename_i sw2 hsw
                simp only [QuadTree.allBubbles, List.mem_append, List.mem_singleton] at hu ⊢
                rcases hu with (h | h) | h | h | h | h
                · exact Or.inl (Or.inl h)
                · exact Or.inr h
                · rcases ih ne b u (by rw [hne]; exact h) with h' | h'
                  · exact Or.inl (Or.inr (Or.inl h'))
                  · exact Or.inr h'
                · rcases ih nw b u (by rw [hnw]; exact h) with h' | h'
                  · exact Or.inl (Or.inr (Or.inr (Or.inl h')))
                  · exact Or.inr h'
                · rcases ih se b u (by rw [hse]; exact h) with h' | h'
                  · exact Or.inl (Or.inr (Or.inr (Or.inr (Or.inl h'))))
                  · exact Or.inr h'
                · rcases ih sw b u (by rw [hsw]; exact h) with h' | h'
                  · exact Or.inl (Or.inr (Or.inr (Or.inr (Or.inr h'))))
                  · exact Or.inr h'
      · exact Or.inl hu

theorem insertAll_allBubbles_subset (cap rem : ℕ) :
    ∀ (bs : List (Bubble α)) (t : QuadTree α) (u : Bubble α),
      u ∈ (insertAll cap rem t bs).allBubbles → u ∈ t.allBubbles ∨ u ∈ bs := by
  intro bs
  induction bs with
  | nil => intro t u hu; exact Or.inl hu
  | cons b bs ih =>
    intro t u hu
    have step : insertAll cap rem t (b :: bs) =
        insertAll cap rem (QuadTree.insert cap rem t b).1 bs := rfl
    rw [step] at hu
    rcases ih (QuadTree.insert cap rem t b).1 u hu with h | h
    · rcases insert_allBubbles_subset cap rem t b u h with h' | h'
      · exact Or.inl h'
      · exact Or.inr (h' ▸ List.mem_cons_self b bs)
    · exact Or.inr (List.mem_cons_of_mem b h)

theorem queryRange_subset :
    ∀ (t : QuadTree α) (range : Rect α) (u : Bubble α),
      u ∈ t.queryRange range → u ∈ t.allBubbles := by
  intro t
  induction t with
  | leaf bd bs =>
    intro range u hu
    simp only [QuadTree.queryRange] at hu
    split_ifs at hu
    · exact (List.mem_filter.mp hu).1
    · cases hu
  | node bd bs ne nw se sw ihne ihnw ihse ihsw =>
    intro range u hu
    simp only [QuadTree.queryRange] at hu
    split_ifs at hu
    · simp only [List.mem_append] at hu
      simp only [QuadTree.allBubbles, List.mem_append]
      rcases hu with h | h | h | h | h
      · exact Or.inl (List.mem_filter.mp h).1
      · exact Or.inr (Or.inl (ihne range u h))
      · exact Or.inr (Or.inr (Or.inl (ihnw range u h)))
      · exact Or.inr (Or.inr (Or.inr (Or.inl (ihse range u h))))
      · exact Or.inr (Or.inr (Or.inr (Or.inr (ihsw range u h))))
    · cases hu

theorem handleBubbleCollision_fields (sq : α → α) (a b : Bubble α) :
    ((handleBubbleCollision sq a b).1.x = a.x ∧ (handleBubbleCollision sq a b).1.y = a.y ∧
      (handleBubbleCollision sq a b).1.radius = a.radius ∧
      (handleBubbleCollision sq a b).1.alpha = a.alpha ∧
      (handleBubbleCollision sq a b).1.idx = a.idx) ∧
    ((handleBubbleCollision sq a b).2.x = b.x ∧ (handleBubbleCollision sq a b).2.y = b.y ∧
      (handleBubbleCollision sq a b).2.radius = b.radius ∧
      (handleBubbleCollision sq a b).2.alpha = b.alpha ∧
      (handleBubbleCollision sq a b).2.idx = b.idx) := by
  simp only [handleBubbleCollision]
  split_ifs <;> exact ⟨⟨rfl, rfl, rfl, rfl, rfl⟩, rfl, rfl, rfl, rfl, rfl⟩

theorem fetchCur_mem_or (cur : List (Bubble α)) (b : Bubble α) :
    fetchCur cur b ∈ cur ∨ fetchCur cur b = b := by
  cases h : cur.find? fun u => u.idx == b.idx with
  | none => exact Or.inr (by unfold fetchCur; rw [h]; rfl)
  | some v =>
    refine Or.inl ?_
    have hm : v ∈ cur := List.mem_of_find?_eq_some h
    unfold fetchCur
    rw [h]
    exact hm

/-- The entity's circle fits the canvas: non-negative radius, diameter at most
the canvas width, diameter at most the height of the play area below the title. -/
def FitsCanvas (cfg : PhysCfg α) (u : Bubble α) : Prop :=
  0 ≤ u.radius ∧ 2 * u.radius ≤ cfg.canvasWidth ∧
  2 * u.radius ≤ cfg.canvasHeight - cfg.titleHeight

/-- The entity's circle lies within `[0, canvasWidth]` horizontally and within
`[titleHeight, canvasHeight]` vertically. -/
def InBounds (cfg : PhysCfg α) (u : Bubble α) : Prop :=
  u.radius ≤ u.x ∧ u.x ≤ cfg.canvasWidth - u.radius ∧
  cfg.titleHeight + u.radius ≤ u.y ∧ u.y ≤ cfg.canvasHeight - u.radius

theorem inBounds_of_eq {cfg : PhysCfg α} {a c : Bubble α} (h : InBounds cfg c)
    (hx : a.x = c.x) (hy : a.y = c.y) (hr : a.radius = c.radius) : InBounds cfg a := by
  unfold InBounds at h ⊢
  rw [hx, hy, hr]
  exact h

theorem perBubbleUpdate_fields (cfg : PhysCfg α) (b : Bubble α) :
    (perBubbleUpdate cfg b).radius = b.radius ∧
    (perBubbleUpdate cfg b).alpha = b.alpha ∧
    (perBubbleUpdate cfg b).idx = b.idx := by
  obtain ⟨hyi, _, _, hyr, hya⟩ :=
    handleWallY_keeps cfg (handleWallX cfg (updatePosition (applyDamping b)))
  obtain ⟨hxi, _, _, hxr, hxa⟩ := handleWallX_preserves cfg (updatePosition (applyDamping b))
  refine ⟨?_, ?_, ?_⟩
  · show (handleWallY cfg (handleWallX cfg (updatePosition (applyDamping b)))).radius = b.radius
    rw [hyr, hxr]
    rfl
  · show (handleWallY cfg (handleWallX cfg (updatePosition (applyDamping b)))).alpha = b.alpha
    rw [hya, hxa]
    rfl
  · show (handleWallY cfg (handleWallX cfg (updatePosition (applyDamping b)))).idx = b.idx
    rw [hyi, hxi]
    rfl

theorem perBubbleUpdate_inBounds (cfg : PhysCfg α) (b : Bubble α)
    (hr : 0 ≤ b.radius) (hw : 2 * b.radius ≤ cfg.canvasWidth)
    (hh : 2 * b.radius ≤ cfg.canvasHeight - cfg.titleHeight) :
    InBounds cfg (perBubbleUpdate cfg b) := by
  have hcr : (updatePosition (applyDamping b)).radius = b.radius := rfl
  obtain ⟨hx1, hx2⟩ := handleWallX_bounds cfg (updatePosition (applyDamping b))
    (by rw [hcr]; exact hr) (by rw [hcr]; exact hw)
  have hdr : (handleWallX cfg (updatePosition (applyDamping b))).radius = b.radius := by
    rw [(handleWallX_preserves cfg (updatePosition (applyDamping b))).2.2.2.1, hcr]
  obtain ⟨hy1, hy2⟩ :=
    handleWallY_bounds cfg (handleWallX cfg (updatePosition (applyDamping b)))
      (by rw [hdr]; exact hr) (by rw [hdr]; exact hh)
  obtain ⟨_, hex, _, her, _⟩ :=
    handleWallY_keeps cfg (handleWallX cfg (updatePosition (applyDamping b)))
  have hEin : InBounds cfg
      (handleWallY cfg (handleWallX cfg (updatePosition (applyDamping b)))) := by
    unfold InBounds
    refine ⟨?_, ?_, hy1, hy2⟩
    · rw [her, hex]; exact hx1
    · rw [hex, her]; exact hx2
  exact inBounds_of_eq hEin rfl rfl rfl

/-- A predicate that depends only on the fields the collision handler never
changes: position, radius and visibility. -/
def PosPred (P : Bubble α → Prop) : Prop :=
  ∀ a c : Bubble α, a.x = c.x → a.y = c.y → a.radius = c.radius → a.alpha = c.alpha →
    P c → P a

theorem applyPairCollision_pred (sq : α → α) {P : Bubble α → Prop} (hP : PosPred P)
    {st : PassState α} {b n : Bubble α}
    (hcur : ∀ u ∈ st.cur, P u) (hb : P b) (hn : P n) :
    ∀ u ∈ (applyPairCollision sq st b n).cur, P u := by
  intro u hu
  simp only [applyPairCollision] at hu
  obtain ⟨v, hv, rfl⟩ := List.mem_map.mp hu
  have hPb : P (fetchCur st.cur b) := by
    rcases fetchCur_mem_or st.cur b with h | h
    · exact hcur _ h
    · rw [h]; exact hb
  have hPn : P (fetchCur st.cur n) := by
    rcases fetchCur_mem_or st.cur n with h | h
    · exact hcur _ h
    · rw [h]; exact hn
  obtain ⟨⟨f1x, f1y, f1r, f1a, _⟩, f2x, f2y, f2r, f2a, _⟩ :=
    handleBubbleCollision_fields sq (fetchCur st.cur b) (fetchCur st.cur n)
  by_cases h1 : v.idx = b.idx
  · rw [if_pos h1]
    exact hP _ _ f1x f1y f1r f1a hPb
  · rw [if_neg h1]
    by_cases h2 : v.idx = n.idx
    · rw [if_pos h2]
      exact hP _ _ f2x f2y f2r f2a hPn
    · rw [if_neg h2]
      exact hcur v hv

theorem innerLoop_pred (sq : α → α) {P : Bubble α → Prop} (hP : PosPred P)
    (b : Bubble α) (hb : P b) :
    ∀ (ns : List (Bubble α)) (st : PassState α), (∀ u ∈ ns, P u) →
      (∀ u ∈ st.cur, P u) → ∀ u ∈ (innerLoop sq b st ns).cur, P u := by
  intro ns
  induction ns with
  | nil => intro st _ hcur; exact hcur
  | cons n ns ih =>
    intro st hns hcur
    simp only [innerLoop]
    split_ifs with hcond
    · exact ih _ (fun u hu => hns u (List.mem_cons_of_mem n hu))
        (applyPairCollision_pred sq hP hcur hb (hns n (List.mem_cons_self n ns)))
    · exact ih _ (fun u hu => hns u (List.mem_cons_of_mem n hu)) hcur

theorem outerLoop_pred (sq : α → α) {P : Bubble α → Prop} (hP : PosPred P)
    (qt : QuadTree α) (hqt : ∀ u ∈ qt.allBubbles, P u) :
    ∀ (bs : List (Bubble α)) (st : PassState α), (∀ u ∈ bs, P u) →
      (∀ u ∈ st.cur, P u) → ∀ u ∈ (outerLoop sq qt st bs).cur, P u := by
  intro bs
  induction bs with
  | nil => intro st _ hcur; exact hcur
  | cons b bs ih =>
    intro st hbs hcur
    simp only [outerLoop]
    exact ih _ (fun u hu => hbs u (List.mem_cons_of_mem b hu))
      (innerLoop_pred sq hP b (hbs b (List.mem_cons_self b bs)) _ st
        (fun u hu => hqt u (queryRange_subset qt _ u hu)) hcur)

theorem processCollisions_pred (sq : α → α) {P : Bubble α → Prop} (hP : PosPred P)
    (cfg : PhysCfg α) (bubbles : List (Bubble α)) (hall : ∀ u ∈ bubbles, P u) :
    ∀ u ∈ (processCollisions sq cfg bubbles).cur, P u := by
  have hvis : ∀ u ∈ bubbles.filter fun u => decide (1 ≤ u.alpha), P u := by
    intro u hu
    exact hall u (List.mem_filter.mp hu).1
  have htree : ∀ u ∈ (insertAll 100 10
      (QuadTree.leaf ⟨0, cfg.titleHeight, cfg.canvasWidth,
        cfg.canvasHeight - cfg.titleHeight⟩ [])
      (bubbles.filter fun u => decide (1 ≤ u.alpha))).allBubbles, P u := by
    intro u hu
    rcases insertAll_allBubbles_subset 100 10 _ _ u hu with h | h
    · cases h
    · exact hvis u h
  unfold processCollisions
  exact outerLoop_pred sq hP _ htree _ _ hvis hall

theorem updatePhysics_step (sq : α → α) (cfg : PhysCfg α) (bubbles : List (Bubble α))
    (hall : ∀ u ∈ bubbles, FitsCanvas cfg u) :
    ∀ u ∈ updatePhysics sq cfg bubbles,
      FitsCanvas cfg u ∧ (1 ≤ u.alpha → InBounds cfg u) := by
  have hP : PosPred fun u => FitsCanvas cfg u ∧ (1 ≤ u.alpha → InBounds cfg u) := by
    intro a c hx hy hr hal hc
    unfold FitsCanvas InBounds at hc ⊢
    rw [hx, hy, hr, hal]
    exact hc
  unfold updatePhysics
  refine processCollisions_pred sq hP cfg _ ?_
  intro u hu
  obtain ⟨v, hv, rfl⟩ := List.mem_map.mp hu
  by_cases ha : 1 ≤ v.alpha
  · rw [if_pos ha]
    obtain ⟨hfr, hfw, hfh⟩ := hall v hv
    obtain ⟨hr, hal, _⟩ := perBubbleUpdate_fields cfg v
    refine ⟨?_, fun _ => perBubbleUpdate_inBounds cfg v hfr hfw hfh⟩
    unfold FitsCanvas
    rw [hr]
    exact ⟨hfr, hfw, hfh⟩
  · rw [if_neg ha]
    exact ⟨hall v hv, fun h => absurd h ha⟩

/-- C2 (amended): if every entity's circle fits the canvas (non-negative radius,
diameter at most the canvas width and at most the play-area height), then after
any positive number of `updatePhysics` frames every visible entity's circle lies
within `[0, canvasWidth]` horizontally and `[titleHeight, canvasHeight]`
vertically.  Without the fitting hypotheses and the visibility restriction the
property is false (see the counterexample). -/
theorem containment_amended (sq : α → α) (cfg : PhysCfg α) (bubbles : List (Bubble α))
    (hfit : ∀ u ∈ bubbles, 0 ≤ u.radius ∧ 2 * u.radius ≤ cfg.canvasWidth ∧
      2 * u.radius ≤ cfg.canvasHeight - cfg.titleHeight) (n : ℕ) :
    ∀ u ∈ (updatePhysics sq cfg)^[n + 1] bubbles, 1 ≤ u.alpha →
      u.radius ≤ u.x ∧ u.x ≤ cfg.canvasWidth - u.radius ∧
      cfg.titleHeight + u.radius ≤ u.y ∧ u.y ≤ cfg.canvasHeight - u.radius := by
  have key : ∀ m : ℕ, ∀ u ∈ (updatePhysics sq cfg)^[m + 1] bubbles,
      FitsCanvas cfg u ∧ (1 ≤ u.alpha → InBounds cfg u) := by
    intro m
    induction m with
    | zero => exact updatePhysics_step sq cfg bubbles fun u hu => hfit u hu
    | succ m ihm =>
      rw [Function.iterate_succ_apply']
      exact updatePhysics_step sq cfg _ fun u hu => (ihm u hu).1
  intro u hu ha
  exact (key n u hu).2 ha

/-- Fitting bubble for the C2 witness. -/
def c2b : Bubble ℚ := ⟨0, 100, 100, 0, 0, 30, 1⟩

/-- Canvas configuration for the C2 witness and counterexample. -/
def c2cfg : PhysCfg ℚ := ⟨800, 450, 60⟩

/-- Witness for C2 (amended) after one frame of an 800×450 canvas. -/
theorem containment_amended_witness :
    (∀ u ∈ [c2b], 0 ≤ u.radius ∧ 2 * u.radius ≤ c2cfg.canvasWidth ∧
      2 * u.radius ≤ c2cfg.canvasHeight - c2cfg.titleHeight) ∧
    ∀ u ∈ (updatePhysics id c2cfg)^[1] [c2b], 1 ≤ u.alpha →
      u.radius ≤ u.x ∧ u.x ≤ c2cfg.canvasWidth - u.radius ∧
      c2cfg.titleHeight + u.radius ≤ u.y ∧ u.y ≤ c2cfg.canvasHeight - u.radius := by
  have hfit : ∀ u ∈ [c2b], 0 ≤ u.radius ∧ 2 * u.radius ≤ c2cfg.canvasWidth ∧
      2 * u.radius ≤ c2cfg.canvasHeight - c2cfg.titleHeight := by
    intro u hu
    rw [List.mem_singleton.mp hu]
    norm_num [c2b, c2cfg]
  exact ⟨hfit, containment_amended id c2cfg [c2b] hfit 0⟩

/-- The oversized bubble of the C2 counterexample: visible, radius 500 on an
800×450 canvas with a 60-pixel title band. -/
def cexB : Bubble ℝ := ⟨0, 400, 255, 0, 0, 500, 1⟩

/-- Canvas configuration of the C2 counterexample. -/
def cexCfg : PhysCfg ℝ := ⟨800, 450, 60⟩

theorem queryRange_leaf_nil (bd range : Rect α) :
    (QuadTree.leaf bd ([] : List (Bubble α))).queryRange range = [] := by
  simp only [QuadTree.queryRange, List.filter_nil]
  split_ifs <;> rfl

theorem cex_update : updatePhysics Real.sqrt cexCfg [cexB] =
    [(⟨0, 500, 560, -1/5, -86/125, 500, 1⟩ : Bubble ℝ)] := by
  have hA : updatePosition (applyDamping cexB) = (⟨0, 400, 255, 0, 0, 500, 1⟩ : Bubble ℝ) := by
    unfold updatePosition applyDamping cexB
    norm_num [Bubble.mk.injEq]
  have hB : handleWallX cexCfg (⟨0, 400, 255, 0, 0, 500, 1⟩ : Bubble ℝ) =
      ⟨0, 500, 255, 0, 0, 500, 1⟩ := by
    unfold handleWallX cexCfg
    split_ifs with h
    · norm_num [Bubble.mk.injEq, max_def, min_def]
    · exfalso; apply h; norm_num
  have hC : handleWallY cexCfg (⟨0, 500, 255, 0, 0, 500, 1⟩ : Bubble ℝ) =
      ⟨0, 500, 560, 0, 0, 500, 1⟩ := by
    unfold handleWallY cexCfg
    split_ifs with h
    · norm_num [Bubble.mk.injEq, max_def, min_def]
    · exfalso; apply h; norm_num
  have hD : applyAttractionToCenter cexCfg (⟨0, 500, 560, 0, 0, 500, 1⟩ : Bubble ℝ) =
      (⟨0, 500, 560, -1/5, -86/125, 500, 1⟩ : Bubble ℝ) := by
    unfold applyAttractionToCenter centerX centerY cexCfg
    norm_num [Bubble.mk.injEq]
  have hper : perBubbleUpdate cexCfg cexB =
      (⟨0, 500, 560, -1/5, -86/125, 500, 1⟩ : Bubble ℝ) := by
    unfold perBubbleUpdate handleWallCollisions
    rw [hA, hB, hC, hD]
  unfold updatePhysics
  have hmap : ([cexB].map fun b => if 1 ≤ b.alpha then perBubbleUpdate cexCfg b else b) =
      [(⟨0, 500, 560, -1/5, -86/125, 500, 1⟩ : Bubble ℝ)] := by
    simp only [List.map_cons, List.map_nil]
    rw [if_pos (by norm_num [cexB]), hper]
  rw [hmap]
  unfold processCollisions
  have hfil : ([(⟨0, 500, 560, -1/5, -86/125, 500, 1⟩ : Bubble ℝ)].filter
      fun u => decide (1 ≤ u.alpha)) = [(⟨0, 500, 560, -1/5, -86/125, 500, 1⟩ : Bubble ℝ)] := by
    simp only [List.filter_cons, List.filter_nil]
    rw [if_pos (decide_eq_true (by norm_num))]
  rw [hfil]
  have hnc : ¬qtContains (⟨0, cexCfg.titleHeight, cexCfg.canvasWidth,
      cexCfg.canvasHeight - cexCfg.titleHeight⟩ : Rect ℝ)
      (⟨0, 500, 560, -1/5, -86/125, 500, 1⟩ : Bubble ℝ) := by
    norm_num [qtContains, cexCfg]
  have htree : insertAll 100 10 (QuadTree.leaf (⟨0, cexCfg.titleHeight, cexCfg.canvasWidth,
      cexCfg.canvasHeight - cexCfg.titleHeight⟩ : Rect ℝ) [])
      [(⟨0, 500, 560, -1/5, -86/125, 500, 1⟩ : Bubble ℝ)] =
      QuadTree.leaf (⟨0, cexCfg.titleHeight, cexCfg.canvasWidth,
        cexCfg.canvasHeight - cexCfg.titleHeight⟩ : Rect ℝ) [] := by
    unfold insertAll
    simp only [List.foldl_cons, List.foldl_nil]
    rw [insert_of_not_contains 100 10
      (QuadTree.leaf (⟨0, cexCfg.titleHeight, cexCfg.canvasWidth,
        cexCfg.canvasHeight - cexCfg.titleHeight⟩ : Rect ℝ) [])
      (⟨0, 500, 560, -1/5, -86/125, 500, 1⟩ : Bubble ℝ) hnc]
  rw [htree]
  simp only [outerLoop]
  rw [queryRange_leaf_nil]
  simp only [innerLoop]

/-- C2 (counterexample): the spec's unconditional containment claim fails — a
visible entity whose circle does not fit the play area escapes it.  With radius
500 on an 800×450 canvas (title band 60), after one `updatePhysics` frame the
entity is clamped to `y = 560`, so its circle crosses the bottom edge:
`y + radius = 1060 > 450 = canvasHeight`. -/
theorem containment_counterexample :
    ∃ u : Bubble ℝ, updatePhysics Real.sqrt cexCfg [cexB] = [u] ∧
      1 ≤ u.alpha ∧ cexCfg.canvasHeight < u.y + u.radius := by
  refine ⟨⟨0, 500, 560, -1/5, -86/125, 500, 1⟩, cex_update, by norm_num, ?_⟩
  norm_num [cexCfg]

end Geometry

end BubbleChart
